import Mathlib

/-!
# EquityWise valuation and balance-reconciliation engine: a Lean embedding

This file shallowly embeds the core of the EquityWise repository
(`src/equitywise/calculators/fa_calculator.py` and the exchange-rate lookup of
`src/equitywise/calculators/rsu_calculator.py`) and proves properties of the
embedded definitions.

Modelling conventions:

* Calendar dates are proleptic-Gregorian ordinals (`ℤ`), exactly CPython's
  `datetime.date.toordinal` (ordinal 1 = 0001-01-01).  `mkDate y m d` is the
  ordinal of the given calendar date; `Python: date(y, m, d)`.  Adding and
  subtracting `timedelta(days = k)` is integer addition and subtraction, and
  date comparison is integer comparison, as in CPython.
* Python floats are modelled as rationals (`ℚ`); the numeric claims checked
  here are exact at this scale.
* Python `None` becomes `Option.none`.  Python truthiness tests on optional
  floats and strings are modelled explicitly (`optTruthy`, `gnTruthy`).
* The two reference-data dictionaries (`sbi_rates`, `stock_data`) are
  association lists `List (ℤ × ℚ)` with unique keys in intended use; the
  stock dictionary is keyed directly to the record's `close_price` field.
* Record fields that the modelled code reads unconditionally (so that a
  `None` would raise `TypeError` in Python) are modelled as non-optional:
  `GLStatementRecord.date_sold`, `.quantity`, `.proceeds_per_share`.
  Fields the code guards with truthiness or `== None`-tolerant equality keep
  `Option`: `.grant_number`, `.date_acquired`.
* At the few sites where the source multiplies a possibly-`None` market-data
  lookup into a float expression (which would raise in Python), the helper
  `qOf` maps `none` to `0`; every claim touching those sites is stated or
  evaluated on inputs where the lookups succeed.
-/

/-! ## Calendar dates (CPython `datetime.date` ordinals) -/

/-- Gregorian leap-year test, as in CPython `calendar.isleap`. -/
def isLeap (y : ℕ) : Bool :=
  (y % 4 == 0 && y % 100 != 0) || (y % 400 == 0)

/-- Extra day contributed by February in a leap year. -/
def febExtra (y : ℕ) : ℤ :=
  if isLeap y then 1 else 0

/-- Days before the first of the given month within year `y`
(CPython `datetime._days_before_month`). -/
def daysBeforeMonth (y : ℕ) : ℕ → ℤ
  | 1 => 0
  | 2 => 31
  | 3 => 59 + febExtra y
  | 4 => 90 + febExtra y
  | 5 => 120 + febExtra y
  | 6 => 151 + febExtra y
  | 7 => 181 + febExtra y
  | 8 => 212 + febExtra y
  | 9 => 243 + febExtra y
  | 10 => 273 + febExtra y
  | 11 => 304 + febExtra y
  | 12 => 334 + febExtra y
  | _ => 365 + febExtra y

/-- Days before January 1 of year `y` (CPython `datetime._days_before_year`);
agrees with CPython for `y ≥ 1`, the only years that occur. -/
def daysBeforeYear (y : ℕ) : ℤ :=
  365 * ((y : ℤ) - 1) + ((y : ℤ) - 1) / 4 - ((y : ℤ) - 1) / 100 + ((y : ℤ) - 1) / 400

/-- The proleptic-Gregorian ordinal of the calendar date `y-m-d`
(CPython `date(y, m, d).toordinal()`). -/
def mkDate (y m d : ℕ) : ℤ :=
  daysBeforeYear y + daysBeforeMonth y m + d

/-- Inverse of the ordinal encoding: `(year, month, day)` of an ordinal
(the standard civil-from-days algorithm; evaluated only on ordinals of
real dates, where it agrees with CPython `date.fromordinal`). -/
def dateYmd (n : ℤ) : ℤ × ℕ × ℕ :=
  let z := n + 305
  let era := z / 146097
  let doe := z % 146097
  let yoe := (doe - doe / 1460 + doe / 36524 - doe / 146096) / 365
  let doy := doe - (365 * yoe + yoe / 4 - yoe / 100)
  let mp := (5 * doy + 2) / 153
  let d := doy - (153 * mp + 2) / 5 + 1
  let m := if mp < 10 then mp + 3 else mp - 9
  let yy := yoe + era * 400
  let year := if m ≤ 2 then yy + 1 else yy
  (year, m.toNat, d.toNat)

/-- The calendar year of an ordinal date (Python `target_date.year`). -/
def yearOf (n : ℤ) : ℤ := (dateYmd n).1

/-- The calendar month of an ordinal date (Python `target_date.month`). -/
def monthOf (n : ℤ) : ℕ := (dateYmd n).2.1

example : mkDate 1 1 1 = 1 := by decide
example : mkDate 2000 1 1 = 730120 := by decide
example : yearOf (mkDate 2024 6 15) = 2024 := by decide
example : monthOf (mkDate 2024 6 15) = 6 := by decide
example : mkDate 2024 3 1 - 1 = mkDate 2024 2 29 := by decide
example : mkDate 2023 3 1 - 1 = mkDate 2023 2 28 := by decide

/-! ## Price series and date-specific lookups

A price series is the calculator's date-keyed dictionary:
`self.sbi_rates = {rate.date: rate.rate}` or
`self.stock_data = {stock.date: stock}` (read through `.close_price`). -/

/-- A date→value dictionary (exchange-rate or stock-price series). -/
abbrev Series := List (ℤ × ℚ)

/-- Dictionary lookup: `series[d]` if present (`d in series` test + access). -/
def findRate (s : Series) (d : ℤ) : Option ℚ :=
  (s.find? (fun p => p.1 == d)).map Prod.snd

/-- Smallest key of the series (`min(series.keys())`), `none` when empty. -/
def minKey (s : Series) : Option ℤ :=
  match s with
  | [] => none
  | p :: ps => some (ps.foldl (fun m q => min m q.1) p.1)

/-- Largest key of the series (`max(series.keys())`), `none` when empty. -/
def maxKey (s : Series) : Option ℤ :=
  match s with
  | [] => none
  | p :: ps => some (ps.foldl (fun m q => max m q.1) p.1)

/-- The bounded fallback-window scan shared by the date-specific lookups:
`for days_offset in range(off, off + fuel)`, checking
`target - days_offset` first, then `target + days_offset`, at each offset. -/
def searchFrom (s : Series) (t : ℤ) : ℕ → ℕ → Option ℚ
  | _, 0 => none
  | off, fuel + 1 =>
    match findRate s (t - off) with
    | some r => some r
    | none =>
      match findRate s (t + off) with
      | some r => some r
      | none => searchFrom s t (off + 1) fuel

/-- Shared body of `FACalculator.get_date_specific_exchange_rate` (window 15)
and `FACalculator.get_date_specific_stock_price` (window 10): exact match,
then the day-by-day window scan, then the out-of-range clamp to the earliest
or latest available value, else `None`. -/
def dateLookupWindowClamp (s : Series) (w : ℕ) (t : ℤ) : Option ℚ :=
  match findRate s t with
  | some r => some r
  | none =>
    match searchFrom s t 1 w with
    | some r => some r
    | none =>
      match minKey s, maxKey s with
      | some lo, some hi =>
        if t < lo then findRate s lo
        else if hi < t then findRate s hi
        else none
      | _, _ => none

/-- `FACalculator.get_date_specific_exchange_rate` (15-day window + clamp). -/
def get_date_specific_exchange_rate (rates : Series) (t : ℤ) : Option ℚ :=
  dateLookupWindowClamp rates 15 t

/-- `FACalculator.get_date_specific_stock_price` (10-day window + clamp). -/
def get_date_specific_stock_price (stocks : Series) (t : ℤ) : Option ℚ :=
  dateLookupWindowClamp stocks 10 t

/-- `RSUCalculator.get_exchange_rate`: exact match, then a 7-day window scan,
then `None` — this per-transaction lookup has no out-of-range clamp. -/
def rsu_get_exchange_rate (rates : Series) (t : ℤ) : Option ℚ :=
  match findRate rates t with
  | some r => some r
  | none => searchFrom rates t 1 7

/-! ### Lookup lemmas -/

theorem findRate_eq_none_iff (s : Series) (d : ℤ) :
    findRate s d = none ↔ ∀ p ∈ s, p.1 ≠ d := by
  unfold findRate
  rw [Option.map_eq_none', List.find?_eq_none]
  constructor
  · intro h p hp
    have := h p hp
    simpa using this
  · intro h p hp
    simpa using h p hp

theorem findRate_isSome_of_mem (s : Series) (p : ℤ × ℚ) (hp : p ∈ s) :
    (findRate s p.1).isSome := by
  unfold findRate
  rw [Option.isSome_map']
  rw [List.find?_isSome]
  exact ⟨p, hp, by simp⟩

theorem searchFrom_eq_none_iff (s : Series) (t : ℤ) :
    ∀ fuel off, searchFrom s t off fuel = none ↔
      ∀ o : ℕ, off ≤ o → o < off + fuel →
        findRate s (t - o) = none ∧ findRate s (t + o) = none := by
  intro fuel
  induction fuel with
  | zero =>
    intro off
    simp only [searchFrom]
    constructor
    · intro _ o h1 h2
      omega
    · intro _
      trivial
  | succ n ih =>
    intro off
    simp only [searchFrom]
    rcases hprev : findRate s (t - off) with _ | r
    · rcases hnext : findRate s (t + off) with _ | r
      · rw [ih (off + 1)]
        constructor
        · intro h o h1 h2
          rcases eq_or_lt_of_le h1 with h1 | h1
          · subst h1
            exact ⟨hprev, hnext⟩
          · exact h o h1 (by omega)
        · intro h o h1 h2
          exact h o (by omega) (by omega)
      · constructor
        · intro h
          cases h
        · intro h
          have := (h off le_rfl (by omega)).2
          rw [hnext] at this
          cases this
    · constructor
      · intro h
        cases h
      · intro h
        have := (h off le_rfl (by omega)).1
        rw [hprev] at this
        cases this

/-- The exact-match-plus-window phase fails on every key iff no key lies
within `w` days of the target. -/
theorem window_phase_none_iff (s : Series) (t : ℤ) (w : ℕ) :
    (findRate s t = none ∧ searchFrom s t 1 w = none) ↔
      ∀ p ∈ s, w < (t - p.1).natAbs := by
  rw [searchFrom_eq_none_iff]
  constructor
  · intro ⟨h0, h⟩ p hp
    by_contra hc
    push_neg at hc
    rcases Nat.eq_zero_or_pos ((t - p.1).natAbs) with hz | hpos
    · have : p.1 = t := by omega
      rw [findRate_eq_none_iff] at h0
      exact h0 p hp this
    · have := h ((t - p.1).natAbs) hpos (by omega)
      obtain ⟨hA, hB⟩ := this
      rw [findRate_eq_none_iff] at hA hB
      have hk : p.1 = t - ((t - p.1).natAbs : ℤ) ∨ p.1 = t + ((t - p.1).natAbs : ℤ) := by
        omega
      rcases hk with hk | hk
      · exact hA p hp hk
      · exact hB p hp hk
  · intro h
    constructor
    · rw [findRate_eq_none_iff]
      intro p hp he
      have := h p hp
      omega
    · intro o h1 h2
      constructor
      · rw [findRate_eq_none_iff]
        intro p hp he
        have := h p hp
        omega
      · rw [findRate_eq_none_iff]
        intro p hp he
        have := h p hp
        omega

theorem minKey_eq_none_iff (s : Series) : minKey s = none ↔ s = [] := by
  cases s <;> simp [minKey]

theorem maxKey_eq_none_iff (s : Series) : maxKey s = none ↔ s = [] := by
  cases s <;> simp [maxKey]

theorem foldl_min_spec (l : List (ℤ × ℚ)) :
    ∀ cur : ℤ, (l.foldl (fun m q => min m q.1) cur = cur ∨
        ∃ p ∈ l, p.1 = l.foldl (fun m q => min m q.1) cur) ∧
      l.foldl (fun m q => min m q.1) cur ≤ cur ∧
      ∀ p ∈ l, l.foldl (fun m q => min m q.1) cur ≤ p.1 := by
  induction l with
  | nil => intro cur; simp
  | cons q qs ih =>
    intro cur
    simp only [List.foldl_cons]
    obtain ⟨h1, h2, h3⟩ := ih (min cur q.1)
    refine ⟨?_, ?_, ?_⟩
    · rcases h1 with h1 | ⟨p, hp, hpe⟩
      · rw [h1]
        rcases le_total cur q.1 with h | h
        · left; exact min_eq_left h
        · right
          exact ⟨q, List.mem_cons_self _ _, by rw [min_eq_right h]⟩
      · right
        exact ⟨p, List.mem_cons_of_mem _ hp, hpe⟩
    · exact le_trans h2 (min_le_left _ _)
    · intro p hp
      rcases List.mem_cons.mp hp with hp | hp
      · subst hp
        exact le_trans h2 (min_le_right _ _)
      · exact h3 p hp

theorem foldl_max_spec (l : List (ℤ × ℚ)) :
    ∀ cur : ℤ, (l.foldl (fun m q => max m q.1) cur = cur ∨
        ∃ p ∈ l, p.1 = l.foldl (fun m q => max m q.1) cur) ∧
      cur ≤ l.foldl (fun m q => max m q.1) cur ∧
      ∀ p ∈ l, p.1 ≤ l.foldl (fun m q => max m q.1) cur := by
  induction l with
  | nil => intro cur; simp
  | cons q qs ih =>
    intro cur
    simp only [List.foldl_cons]
    obtain ⟨h1, h2, h3⟩ := ih (max cur q.1)
    refine ⟨?_, ?_, ?_⟩
    · rcases h1 with h1 | ⟨p, hp, hpe⟩
      · rw [h1]
        rcases le_total cur q.1 with h | h
        · right
          exact ⟨q, List.mem_cons_self _ _, by rw [max_eq_right h]⟩
        · left; exact max_eq_left h
      · right
        exact ⟨p, List.mem_cons_of_mem _ hp, hpe⟩
    · exact le_trans (le_max_left _ _) h2
    · intro p hp
      rcases List.mem_cons.mp hp with hp | hp
      · subst hp
        exact le_trans (le_max_right _ _) h2
      · exact h3 p hp

theorem minKey_spec (s : Series) (lo : ℤ) (h : minKey s = some lo) :
    (∃ p ∈ s, p.1 = lo) ∧ ∀ p ∈ s, lo ≤ p.1 := by
  cases s with
  | nil => cases h
  | cons q qs =>
    simp only [minKey, Option.some.injEq] at h
    obtain ⟨h1, h2, h3⟩ := foldl_min_spec qs q.1
    constructor
    · rcases h1 with h1 | ⟨p, hp, hpe⟩
      · exact ⟨q, List.mem_cons_self _ _, by omega⟩
      · exact ⟨p, List.mem_cons_of_mem _ hp, by omega⟩
    · intro p hp
      rcases List.mem_cons.mp hp with hp | hp
      · subst hp; omega
      · have := h3 p hp; omega

theorem maxKey_spec (s : Series) (hi : ℤ) (h : maxKey s = some hi) :
    (∃ p ∈ s, p.1 = hi) ∧ ∀ p ∈ s, p.1 ≤ hi := by
  cases s with
  | nil => cases h
  | cons q qs =>
    simp only [maxKey, Option.some.injEq] at h
    obtain ⟨h1, h2, h3⟩ := foldl_max_spec qs q.1
    constructor
    · rcases h1 with h1 | ⟨p, hp, hpe⟩
      · exact ⟨q, List.mem_cons_self _ _, by omega⟩
      · exact ⟨p, List.mem_cons_of_mem _ hp, by omega⟩
    · intro p hp
      rcases List.mem_cons.mp hp with hp | hp
      · subst hp; omega
      · have := h3 p hp; omega

theorem findRate_ne_none_of_key (s : Series) (k : ℤ) (h : ∃ p ∈ s, p.1 = k) :
    findRate s k ≠ none := by
  obtain ⟨p, hp, hpe⟩ := h
  subst hpe
  have := findRate_isSome_of_mem s p hp
  intro hc
  rw [hc] at this
  cases this

/-- Full characterization of when the windowed-plus-clamped lookup returns
the absence signal: the series is empty, or the target lies weakly between
the earliest and latest available dates while no available date is within
the window. -/
theorem dateLookupWindowClamp_eq_none_iff (s : Series) (w : ℕ) (t : ℤ) :
    dateLookupWindowClamp s w t = none ↔
      s = [] ∨ (∃ lo hi, minKey s = some lo ∧ maxKey s = some hi ∧
        lo ≤ t ∧ t ≤ hi ∧ ∀ p ∈ s, w < (t - p.1).natAbs) := by
  unfold dateLookupWindowClamp
  rcases h0 : findRate s t with _ | r
  · rcases hs : searchFrom s t 1 w with _ | r
    · have hwin : ∀ p ∈ s, w < (t - p.1).natAbs :=
        (window_phase_none_iff s t w).mp ⟨h0, hs⟩
      cases s with
      | nil => simp [minKey, maxKey]
      | cons q qs =>
        rcases hlo : minKey (q :: qs) with _ | lo
        · rw [minKey_eq_none_iff] at hlo
          cases hlo
        · rcases hhi : maxKey (q :: qs) with _ | hi
          · rw [maxKey_eq_none_iff] at hhi
            cases hhi
          · simp only
            by_cases hlt : t < lo
            · have h1 : findRate (q :: qs) lo ≠ none :=
                findRate_ne_none_of_key _ _ (minKey_spec _ _ hlo).1
              simp only [if_pos hlt]
              constructor
              · intro hc
                exact absurd hc h1
              · intro hc
                rcases hc with hc | ⟨lo', hi', hlo', hhi', hle, _, _⟩
                · cases hc
                · injection hlo' with he
                  omega
            · by_cases hgt : hi < t
              · have h1 : findRate (q :: qs) hi ≠ none :=
                  findRate_ne_none_of_key _ _ (maxKey_spec _ _ hhi).1
                simp only [if_neg hlt, if_pos hgt]
                constructor
                · intro hc
                  exact absurd hc h1
                · intro hc
                  rcases hc with hc | ⟨lo', hi', hlo', hhi', _, hle, _⟩
                  · cases hc
                  · injection hhi' with he
                    omega
              · simp only [if_neg hlt, if_neg hgt]
                constructor
                · intro _
                  right
                  exact ⟨lo, hi, rfl, rfl, by omega, by omega, hwin⟩
                · intro _
                  trivial
    · simp only
      constructor
      · intro hc
        cases hc
      · intro hc
        exfalso
        rcases hc with hc | ⟨lo, hi, hlo, hhi, _, _, hwin⟩
        · subst hc
          have hboth := (window_phase_none_iff ([] : Series) t w).mpr (by simp)
          rw [hs] at hboth
          cases hboth.2
        · have hboth := (window_phase_none_iff s t w).mpr hwin
          rw [hs] at hboth
          cases hboth.2
  · simp only
    constructor
    · intro hc
      cases hc
    · intro hc
      exfalso
      rcases hc with hc | ⟨lo, hi, hlo, hhi, _, _, hwin⟩
      · subst hc
        have : findRate ([] : Series) t = none := by
          rw [findRate_eq_none_iff]
          intro p hp
          cases hp
        rw [h0] at this
        cases this
      · have hmem : ∃ p ∈ s, p.1 = t := by
          unfold findRate at h0
          rcases hf : s.find? (fun p => p.1 == t) with _ | p
          · rw [hf] at h0
            cases h0
          · have hp := List.find?_some hf
            have hm := List.mem_of_find?_eq_some hf
            exact ⟨p, hm, by simpa using hp⟩
        obtain ⟨p, hp, hpe⟩ := hmem
        have := hwin p hp
        omega

/-- The per-transaction RSU rate lookup returns the absence signal iff no
rate lies within 7 days of the target (it has no range clamp). -/
theorem rsu_get_exchange_rate_eq_none_iff (s : Series) (t : ℤ) :
    rsu_get_exchange_rate s t = none ↔ ∀ p ∈ s, 7 < (t - p.1).natAbs := by
  unfold rsu_get_exchange_rate
  rcases h0 : findRate s t with _ | r
  · simp only
    constructor
    · intro hs
      exact (window_phase_none_iff s t 7).mp ⟨h0, hs⟩
    · intro h
      exact ((window_phase_none_iff s t 7).mpr h).2
  · simp only
    constructor
    · intro hc
      cases hc
    · intro h
      exfalso
      have hn : findRate s t = none := ((window_phase_none_iff s t 7).mpr h).1
      rw [h0] at hn
      cases hn

theorem dateLookupWindowClamp_clamp_low (s : Series) (w : ℕ) (t lo hi : ℤ)
    (hlo : minKey s = some lo) (hhi : maxKey s = some hi)
    (hwin : ∀ p ∈ s, w < (t - p.1).natAbs) (hlt : t < lo) :
    dateLookupWindowClamp s w t = findRate s lo ∧ (findRate s lo).isSome := by
  obtain ⟨h0, hs⟩ := (window_phase_none_iff s t w).mpr hwin
  constructor
  · unfold dateLookupWindowClamp
    simp only [h0, hs, hlo, hhi]
    rw [if_pos hlt]
  · obtain ⟨p, hp, hpe⟩ := (minKey_spec s lo hlo).1
    subst hpe
    exact findRate_isSome_of_mem s p hp

theorem dateLookupWindowClamp_clamp_high (s : Series) (w : ℕ) (t lo hi : ℤ)
    (hlo : minKey s = some lo) (hhi : maxKey s = some hi)
    (hwin : ∀ p ∈ s, w < (t - p.1).natAbs) (hgt : hi < t) :
    dateLookupWindowClamp s w t = findRate s hi ∧ (findRate s hi).isSome := by
  obtain ⟨h0, hs⟩ := (window_phase_none_iff s t w).mpr hwin
  constructor
  · unfold dateLookupWindowClamp
    simp only [h0, hs, hlo, hhi]
    have hnlt : ¬ t < lo := by
      have := (minKey_spec s lo hlo).2
      obtain ⟨p, hp, hpe⟩ := (maxKey_spec s hi hhi).1
      have := this p hp
      omega
    rw [if_neg hnlt, if_pos hgt]
  · obtain ⟨p, hp, hpe⟩ := (maxKey_spec s hi hhi).1
    subst hpe
    exact findRate_isSome_of_mem s p hp

theorem dateLookupWindowClamp_isSome_of_near (s : Series) (w : ℕ) (t : ℤ)
    (h : ∃ p ∈ s, (t - p.1).natAbs ≤ w) :
    (dateLookupWindowClamp s w t).isSome := by
  rw [← Option.ne_none_iff_isSome]
  intro hc
  rw [dateLookupWindowClamp_eq_none_iff] at hc
  obtain ⟨p, hp, hpe⟩ := h
  rcases hc with hc | ⟨lo, hi, _, _, _, _, hwin⟩
  · subst hc
    cases hp
  · have := hwin p hp
    omega

/-- C3 (counterexample): a non-empty exchange-rate series — entries only at
2020-01-01 and 2020-12-31 — still yields the absence signal for the interior
target 2020-06-15, refuting "only occurs if the series is empty". -/
theorem exchange_rate_lookup_none_on_nonempty_series :
    get_date_specific_exchange_rate
        [(mkDate 2020 1 1, 80), (mkDate 2020 12 31, 85)] (mkDate 2020 6 15) = none ∧
      ([(mkDate 2020 1 1, 80), (mkDate 2020 12 31, 85)] : Series) ≠ [] := by
  decide

/-- C3 (amended): a date-specific exchange-rate or stock-price lookup returns
the absence signal exactly when the series is empty, or the target lies
weakly between the series' earliest and latest dates while no series date is
within the fallback window (15 days for the exchange-rate lookup, 10 days for
the stock-price lookup).  Out-of-range targets always clamp, so with a
non-empty series the absence signal can still arise from an interior gap
wider than the window. -/
theorem lookup_absence_signal_characterization (s : Series) (t : ℤ) :
    (get_date_specific_exchange_rate s t = none ↔
      s = [] ∨ (∃ lo hi, minKey s = some lo ∧ maxKey s = some hi ∧
        lo ≤ t ∧ t ≤ hi ∧ ∀ p ∈ s, 15 < (t - p.1).natAbs)) ∧
    (get_date_specific_stock_price s t = none ↔
      s = [] ∨ (∃ lo hi, minKey s = some lo ∧ maxKey s = some hi ∧
        lo ≤ t ∧ t ≤ hi ∧ ∀ p ∈ s, 10 < (t - p.1).natAbs)) :=
  ⟨dateLookupWindowClamp_eq_none_iff s 15 t, dateLookupWindowClamp_eq_none_iff s 10 t⟩

/-- C4 (counterexample): the 7-day per-transaction RSU rate lookup does not
clamp: a non-empty series whose only date is 8 days before the target yields
the absence signal, refuting "never by returning an error or absence" for
the 7-day window. -/
theorem rsu_rate_lookup_absent_beyond_window :
    rsu_get_exchange_rate [(mkDate 2024 1 1, 80)] (mkDate 2024 1 9) = none ∧
      ([(mkDate 2024 1 1, 80)] : Series) ≠ [] := by
  decide

/-- C4 (amended): a target whose nearest series date is exactly at the window
bound (15/10/7 days) still resolves via the window search for all three
lookups; beyond the window, the 15-day exchange-rate and 10-day stock-price
lookups clamp to the earliest available value (target before all dates) or
the latest available value (target after all dates), while the 7-day
per-transaction RSU lookup returns the absence signal instead of clamping. -/
theorem lookup_window_boundary_and_clamp (s : Series) (t : ℤ) :
    ((∃ p ∈ s, (t - p.1).natAbs = 15) → (get_date_specific_exchange_rate s t).isSome) ∧
    ((∃ p ∈ s, (t - p.1).natAbs = 10) → (get_date_specific_stock_price s t).isSome) ∧
    ((∃ p ∈ s, (t - p.1).natAbs = 7) → (rsu_get_exchange_rate s t).isSome) ∧
    (∀ lo hi : ℤ, minKey s = some lo → maxKey s = some hi →
      ((∀ p ∈ s, 15 < (t - p.1).natAbs) →
        (t < lo → get_date_specific_exchange_rate s t = findRate s lo ∧ (findRate s lo).isSome) ∧
        (hi < t → get_date_specific_exchange_rate s t = findRate s hi ∧ (findRate s hi).isSome)) ∧
      ((∀ p ∈ s, 10 < (t - p.1).natAbs) →
        (t < lo → get_date_specific_stock_price s t = findRate s lo ∧ (findRate s lo).isSome) ∧
        (hi < t → get_date_specific_stock_price s t = findRate s hi ∧ (findRate s hi).isSome))) ∧
    ((∀ p ∈ s, 7 < (t - p.1).natAbs) → rsu_get_exchange_rate s t = none) := by
  refine ⟨?_, ?_, ?_, ?_, ?_⟩
  · intro ⟨p, hp, hpe⟩
    exact dateLookupWindowClamp_isSome_of_near s 15 t ⟨p, hp, by omega⟩
  · intro ⟨p, hp, hpe⟩
    exact dateLookupWindowClamp_isSome_of_near s 10 t ⟨p, hp, by omega⟩
  · intro ⟨p, hp, hpe⟩
    rw [← Option.ne_none_iff_isSome]
    intro hc
    rw [rsu_get_exchange_rate_eq_none_iff] at hc
    have := hc p hp
    omega
  · intro lo hi hlo hhi
    exact ⟨fun hwin =>
        ⟨fun hlt => dateLookupWindowClamp_clamp_low s 15 t lo hi hlo hhi hwin hlt,
         fun hgt => dateLookupWindowClamp_clamp_high s 15 t lo hi hlo hhi hwin hgt⟩,
      fun hwin =>
        ⟨fun hlt => dateLookupWindowClamp_clamp_low s 10 t lo hi hlo hhi hwin hlt,
         fun hgt => dateLookupWindowClamp_clamp_high s 10 t lo hi hlo hhi hwin hgt⟩⟩
  · intro h
    exact (rsu_get_exchange_rate_eq_none_iff s t).mpr h

/-! ## Data model

The engine's two event streams, as parsed by the excluded collaborators:
`RSUVestingRecord` (`data/rsu_parser.py`) and `GLStatementRecord`
(`data/models.py`), restricted to the fields the modelled calculators read.
`EquityHolding` is the calculators' per-grant output record. -/

/-- One RSU vesting event (a vesting lot). -/
structure RSUVestingRecord where
  grant_number : String
  quantity : ℤ
  vesting_date : ℤ
  fmv_usd : ℚ
  forex_rate : ℚ
  total_inr : ℚ
  deriving Repr, DecidableEq

/-- One sale row of a G&L statement (a disposal lot).  `quantity`,
`date_sold` and `proceeds_per_share` are read unconditionally by the
modelled code, so they are non-optional here; `grant_number` and
`date_acquired` keep their optionality (the code guards them). -/
structure GLStatementRecord where
  grant_number : Option String
  quantity : ℚ
  date_acquired : Option ℤ
  date_sold : ℤ
  proceeds_per_share : ℚ
  deriving Repr, DecidableEq

/-- Python truthiness of an optional float (`None` and `0.0` are falsy). -/
def optTruthy : Option ℚ → Bool
  | none => false
  | some r => !(r == 0)

/-- Python truthiness of an optional string (`None` and `""` are falsy). -/
def gnTruthy : Option String → Bool
  | none => false
  | some s => !(s == "")

/-- Reads an optional market-data value where the source would use it
unguarded in a float expression (a `None` would raise in Python). -/
def qOf : Option ℚ → ℚ
  | none => 0
  | some r => r

/-- An equity holding for FA declaration (`fa_calculator.EquityHolding`). -/
structure EquityHolding where
  holding_date : ℤ
  quantity : ℚ
  cost_basis_usd_per_share : ℚ
  market_value_usd_per_share : ℚ
  cost_basis_usd_total : ℚ
  market_value_usd_total : ℚ
  cost_basis_inr_total : ℚ
  market_value_inr_total : ℚ
  exchange_rate : ℚ
  holding_type : String
  grant_number : Option String
  vest_date : Option ℤ
  calendar_year : ℤ
  deriving Repr, DecidableEq

/-! ## FIFO holdings resolver (`FACalculator.process_rsu_equity_holdings`) -/

/-- Total shares sold for a grant up to the as-of date, from G&L rows with a
truthy grant number (Formula 3: matched by grant identifier only). -/
def soldSharesByGrant (gl : List GLStatementRecord) (asOf : ℤ) (g : String) : ℚ :=
  ((gl.filter (fun r =>
      decide (r.date_sold ≤ asOf) && gnTruthy r.grant_number &&
        (r.grant_number == some g))).map (fun r => r.quantity)).sum

/-- Vesting records on or before the as-of date. -/
def relevantVestings (rsu : List RSUVestingRecord) (asOf : ℤ) : List RSUVestingRecord :=
  rsu.filter (fun r => decide (r.vesting_date ≤ asOf))

/-- Distinct grant numbers in first-occurrence order (the iteration order of
the `defaultdict` grouping `grants_vestings`). -/
def groupKeys (rsu : List RSUVestingRecord) : List String :=
  rsu.foldl (fun ks r => if r.grant_number ∈ ks then ks else ks ++ [r.grant_number]) []

/-- Stable insertion into a list sorted by vesting date (equal dates keep
input order, as Python's stable `sorted` does). -/
def insertByVestDate (x : RSUVestingRecord) : List RSUVestingRecord → List RSUVestingRecord
  | [] => [x]
  | y :: ys =>
    if y.vesting_date ≤ x.vesting_date then y :: insertByVestDate x ys
    else x :: y :: ys

/-- `sorted(vesting_records, key=lambda x: x.vesting_date)`. -/
def sortByVestDate (l : List RSUVestingRecord) : List RSUVestingRecord :=
  l.foldl (fun acc x => insertByVestDate x acc) []

/-- Formula 4: walk the (sorted) vesting lots earliest-first, consuming up to
the remaining holding from each lot at that lot's own FMV. -/
def fifoCostBasis : ℚ → List RSUVestingRecord → ℚ
  | _, [] => 0
  | remaining, lot :: rest =>
    if remaining ≤ 0 then 0
    else
      min remaining (lot.quantity : ℚ) * lot.fmv_usd +
        fifoCostBasis (remaining - min remaining (lot.quantity : ℚ)) rest

/-- `max(vesting_records, key=lambda x: x.vesting_date)`: the latest vesting
record — Python `max` keeps the earliest maximum among equals. -/
def latestVesting (first : RSUVestingRecord) (rest : List RSUVestingRecord) :
    RSUVestingRecord :=
  rest.foldl (fun best r => if best.vesting_date < r.vesting_date then r else best) first

/-- The per-grant body of `process_rsu_equity_holdings`: `none` when the
grant holds no shares as of the date (the grant is omitted, not reported as
zero).  An empty group with a positive holding (impossible with non-negative
sale quantities) mirrors the source's caught `max()` exception: the grant is
skipped. -/
def perGrantHolding (asOf : ℤ) (rate price : ℚ) (gl : List GLStatementRecord)
    (relevant : List RSUVestingRecord) (g : String) : Option EquityHolding :=
  let group := relevant.filter (fun r => r.grant_number == g)
  let total_vested : ℤ := (group.map (fun r => r.quantity)).sum
  let total_sold : ℚ := soldSharesByGrant gl asOf g
  let current : ℚ := max 0 ((total_vested : ℚ) - total_sold)
  if 0 < current then
    match group with
    | [] => none
    | f :: rest =>
      let cost := fifoCostBasis current (sortByVestDate (f :: rest))
      some
        { holding_date := asOf
          quantity := current
          cost_basis_usd_per_share := cost / current
          market_value_usd_per_share := price
          cost_basis_usd_total := cost
          market_value_usd_total := price * current
          cost_basis_inr_total := cost * rate
          market_value_inr_total := price * current * rate
          exchange_rate := rate
          holding_type := "Vested"
          grant_number := some g
          vest_date := some (latestVesting f rest).vesting_date
          calendar_year := yearOf asOf }
  else none

/-- `FACalculator.process_rsu_equity_holdings`: resolve per-grant holdings as
of a date.  Returns `[]` when the date-specific exchange rate or stock price
is falsy (`None` or `0.0`), as the source does. -/
def process_rsu_equity_holdings (rates stocks : Series)
    (rsu : List RSUVestingRecord) (gl : List GLStatementRecord) (asOf : ℤ) :
    List EquityHolding :=
  match get_date_specific_exchange_rate rates asOf with
  | none => []
  | some rate =>
    if rate == 0 then []
    else
      match get_date_specific_stock_price stocks asOf with
      | none => []
      | some price =>
        if price == 0 then []
        else
          (groupKeys (relevantVestings rsu asOf)).filterMap
            (perGrantHolding asOf rate price gl (relevantVestings rsu asOf))

/-- Spec §8 Scenario 1: one lot, no disposals. -/
example :
    (process_rsu_equity_holdings [(mkDate 2024 12 31, 83)] [(mkDate 2024 12 31, 500)]
        [{ grant_number := "RU1", quantity := 3, vesting_date := mkDate 2024 4 15,
           fmv_usd := 473.56, forex_rate := 83.4516, total_inr := 118558 }]
        [] (mkDate 2024 12 31)).map
      (fun h => (h.quantity, h.cost_basis_usd_total)) = [(3, 1420.68)] := by
  norm_num +decide [process_rsu_equity_holdings, get_date_specific_exchange_rate,
    get_date_specific_stock_price, dateLookupWindowClamp, findRate, searchFrom,
    minKey, maxKey, relevantVestings, groupKeys, perGrantHolding,
    soldSharesByGrant, fifoCostBasis, sortByVestDate, insertByVestDate,
    latestVesting, gnTruthy, optTruthy, qOf, mkDate, daysBeforeYear,
    daysBeforeMonth, febExtra, isLeap, yearOf, dateYmd, List.filterMap_cons,
    List.filterMap_nil]

/-- C1 (counterexample): Scenario 2 as the spec states it is false on the
code.  Grant "RU2" with lots {2023-01-15, qty 5, FMV 400} and {2023-07-15,
qty 3, FMV 450} and a disposal of 4 shares (acquired 2023-01-15, sold
2024-06-15): the resolver as of 2024-12-31 does not return cost basis
1750 USD — it allocates the remaining 4 shares to the earliest lot at
FMV 400, giving 1600 USD. -/
theorem scenario2_resolver_not_1750 :
    ¬ ((process_rsu_equity_holdings
          [(mkDate 2024 12 31, 83)] [(mkDate 2024 12 31, 500)]
          [{ grant_number := "RU2", quantity := 5, vesting_date := mkDate 2023 1 15,
             fmv_usd := 400, forex_rate := 82, total_inr := 164000 },
           { grant_number := "RU2", quantity := 3, vesting_date := mkDate 2023 7 15,
             fmv_usd := 450, forex_rate := 82, total_inr := 110700 }]
          [{ grant_number := some "RU2", quantity := 4,
             date_acquired := some (mkDate 2023 1 15),
             date_sold := mkDate 2024 6 15, proceeds_per_share := 500 }]
          (mkDate 2024 12 31)).map
        (fun h => (h.quantity, h.cost_basis_usd_total)) = [(4, 1750)]) := by
  norm_num +decide [process_rsu_equity_holdings, get_date_specific_exchange_rate,
    get_date_specific_stock_price, dateLookupWindowClamp, findRate, searchFrom,
    minKey, maxKey, relevantVestings, groupKeys, perGrantHolding,
    soldSharesByGrant, fifoCostBasis, sortByVestDate, insertByVestDate,
    latestVesting, gnTruthy, optTruthy, qOf, mkDate, daysBeforeYear,
    daysBeforeMonth, febExtra, isLeap, yearOf, dateYmd, List.filterMap_cons,
    List.filterMap_nil]

/-- C1 (amended): for the Scenario-2 input, the resolver as of 2024-12-31
returns quantity 4 and cost basis 1600 USD: the current holding of 4 shares
is allocated to the earliest lots first (4 × 400 from the first lot), since
the resolver does not match disposals against their acquisition lots. -/
theorem scenario2_resolver_quantity_and_cost_basis :
    (process_rsu_equity_holdings
        [(mkDate 2024 12 31, 83)] [(mkDate 2024 12 31, 500)]
        [{ grant_number := "RU2", quantity := 5, vesting_date := mkDate 2023 1 15,
           fmv_usd := 400, forex_rate := 82, total_inr := 164000 },
         { grant_number := "RU2", quantity := 3, vesting_date := mkDate 2023 7 15,
           fmv_usd := 450, forex_rate := 82, total_inr := 110700 }]
        [{ grant_number := some "RU2", quantity := 4,
           date_acquired := some (mkDate 2023 1 15),
           date_sold := mkDate 2024 6 15, proceeds_per_share := 500 }]
        (mkDate 2024 12 31)).map
      (fun h => (h.quantity, h.cost_basis_usd_total)) = [(4, 1600)] := by
  norm_num +decide [process_rsu_equity_holdings, get_date_specific_exchange_rate,
    get_date_specific_stock_price, dateLookupWindowClamp, findRate, searchFrom,
    minKey, maxKey, relevantVestings, groupKeys, perGrantHolding,
    soldSharesByGrant, fifoCostBasis, sortByVestDate, insertByVestDate,
    latestVesting, gnTruthy, optTruthy, qOf, mkDate, daysBeforeYear,
    daysBeforeMonth, febExtra, isLeap, yearOf, dateYmd, List.filterMap_cons,
    List.filterMap_nil]

/-! ### Structural lemmas for the holdings resolver -/

theorem groupKeys_aux_nodup (l : List RSUVestingRecord) :
    ∀ acc : List String, acc.Nodup →
      (l.foldl (fun ks r => if r.grant_number ∈ ks then ks else ks ++ [r.grant_number]) acc).Nodup := by
  induction l with
  | nil => intro acc h; exact h
  | cons r rest ih =>
    intro acc h
    simp only [List.foldl_cons]
    by_cases hm : r.grant_number ∈ acc
    · rw [if_pos hm]
      exact ih acc h
    · rw [if_neg hm]
      refine ih _ ?_
      rw [List.nodup_append]
      exact ⟨h, List.nodup_singleton _, by
        intro a ha hb
        rw [List.mem_singleton] at hb
        subst hb
        exact hm ha⟩

theorem groupKeys_aux_mem (l : List RSUVestingRecord) (g : String) :
    ∀ acc : List String,
      (g ∈ l.foldl (fun ks r => if r.grant_number ∈ ks then ks else ks ++ [r.grant_number]) acc ↔
        g ∈ acc ∨ ∃ r ∈ l, r.grant_number = g) := by
  induction l with
  | nil => intro acc; simp
  | cons r rest ih =>
    intro acc
    simp only [List.foldl_cons]
    by_cases hm : r.grant_number ∈ acc
    · rw [if_pos hm, ih acc]
      constructor
      · rintro (h | h)
        · exact Or.inl h
        · exact Or.inr ⟨h.choose, List.mem_cons_of_mem _ h.choose_spec.1, h.choose_spec.2⟩
      · rintro (h | ⟨q, hq, hqe⟩)
        · exact Or.inl h
        · rcases List.mem_cons.mp hq with hq | hq
          · subst hq
            exact Or.inl (hqe ▸ hm)
          · exact Or.inr ⟨q, hq, hqe⟩
    · rw [if_neg hm, ih _]
      constructor
      · rintro (h | h)
        · rcases List.mem_append.mp h with h | h
          · exact Or.inl h
          · rw [List.mem_singleton] at h
            exact Or.inr ⟨r, List.mem_cons_self _ _, h.symm⟩
        · exact Or.inr ⟨h.choose, List.mem_cons_of_mem _ h.choose_spec.1, h.choose_spec.2⟩
      · rintro (h | ⟨q, hq, hqe⟩)
        · exact Or.inl (List.mem_append.mpr (Or.inl h))
        · rcases List.mem_cons.mp hq with hq | hq
          · subst hq
            exact Or.inl (List.mem_append.mpr (Or.inr (List.mem_singleton.mpr hqe.symm)))
          · exact Or.inr ⟨q, hq, hqe⟩

theorem groupKeys_nodup (l : List RSUVestingRecord) : (groupKeys l).Nodup :=
  groupKeys_aux_nodup l [] List.nodup_nil

theorem mem_groupKeys (l : List RSUVestingRecord) (g : String) :
    g ∈ groupKeys l ↔ ∃ r ∈ l, r.grant_number = g := by
  unfold groupKeys
  rw [groupKeys_aux_mem l g []]
  simp

/-- Character of the keyed `filterMap`: when every produced holding carries
its own key and the keys are distinct, filtering the output by one key
isolates that key's contribution. -/
theorem filter_grant_of_filterMap (keys : List String)
    (f : String → Option EquityHolding)
    (hf : ∀ g h, f g = some h → h.grant_number = some g) (g : String)
    (hnd : keys.Nodup) :
    (keys.filterMap f).filter (fun h => h.grant_number == some g) =
      if g ∈ keys then (f g).toList else [] := by
  induction keys with
  | nil => simp
  | cons k rest ih =>
    have hnd' := (List.nodup_cons.mp hnd).2
    have hk : k ∉ rest := (List.nodup_cons.mp hnd).1
    rcases hfk : f k with _ | h
    · rw [List.filterMap_cons_none hfk]
      rw [ih hnd']
      by_cases hg : g = k
      · subst hg
        rw [if_neg hk, if_pos (List.mem_cons_self _ _), hfk]
        rfl
      · by_cases hgr : g ∈ rest
        · rw [if_pos hgr, if_pos (List.mem_cons_of_mem _ hgr)]
        · rw [if_neg hgr, if_neg (by
            intro hc
            rcases List.mem_cons.mp hc with hc | hc
            · exact hg hc
            · exact hgr hc)]
    · rw [List.filterMap_cons_some hfk]
      have hgn : h.grant_number = some k := hf k h hfk
      by_cases hg : g = k
      · subst hg
        rw [List.filter_cons_of_pos (by simp [hgn])]
        rw [ih hnd', if_neg hk, if_pos (List.mem_cons_self _ _), hfk]
        rfl
      · rw [List.filter_cons_of_neg (by simp [hgn, Ne.symm hg])]
        rw [ih hnd']
        by_cases hgr : g ∈ rest
        · rw [if_pos hgr, if_pos (List.mem_cons_of_mem _ hgr)]
        · rw [if_neg hgr, if_neg (by
            intro hc
            rcases List.mem_cons.mp hc with hc | hc
            · exact hg hc
            · exact hgr hc)]

theorem perGrantHolding_grant (asOf : ℤ) (rate price : ℚ)
    (gl : List GLStatementRecord) (relevant : List RSUVestingRecord)
    (g : String) (h : EquityHolding)
    (he : perGrantHolding asOf rate price gl relevant g = some h) :
    h.grant_number = some g := by
  unfold perGrantHolding at he
  simp only [] at he
  split at he
  · split at he
    · cases he
    · injection he with he
      subst he
      rfl
  · cases he

theorem perGrantHolding_some_fields (asOf : ℤ) (rate price : ℚ)
    (gl : List GLStatementRecord) (relevant : List RSUVestingRecord)
    (g : String) (h : EquityHolding)
    (he : perGrantHolding asOf rate price gl relevant g = some h) :
    h.grant_number = some g ∧
    h.quantity = max 0
      ((((relevant.filter (fun r => r.grant_number == g)).map
            (fun r => r.quantity)).sum : ℤ) - soldSharesByGrant gl asOf g) ∧
    0 < h.quantity ∧
    h.cost_basis_usd_total =
      fifoCostBasis h.quantity
        (sortByVestDate (relevant.filter (fun r => r.grant_number == g))) ∧
    h.cost_basis_usd_per_share = h.cost_basis_usd_total / h.quantity := by
  unfold perGrantHolding at he
  simp only [] at he
  split at he
  case isTrue hpos =>
    split at he
    case h_1 hgrp =>
      cases he
    case h_2 f rest hgrp =>
      injection he with he
      subst he
      refine ⟨rfl, ?_, ?_, ?_, rfl⟩
      · simp only [hgrp]
      · simpa using hpos
      · simp only [hgrp]
  case isFalse => cases he

theorem perGrantHolding_eq_none_of_nonpos (asOf : ℤ) (rate price : ℚ)
    (gl : List GLStatementRecord) (relevant : List RSUVestingRecord)
    (g : String)
    (hnp : ¬ 0 < max 0
      ((((relevant.filter (fun r => r.grant_number == g)).map
            (fun r => r.quantity)).sum : ℤ) - soldSharesByGrant gl asOf g)) :
    perGrantHolding asOf rate price gl relevant g = none := by
  simp only [perGrantHolding]
  rw [if_neg hnp]

theorem perGrantHolding_some_of_pos (asOf : ℤ) (rate price : ℚ)
    (gl : List GLStatementRecord) (relevant : List RSUVestingRecord)
    (g : String) (f : RSUVestingRecord) (rest : List RSUVestingRecord)
    (hgrp : relevant.filter (fun r => r.grant_number == g) = f :: rest)
    (hpos : 0 < max 0
      ((((relevant.filter (fun r => r.grant_number == g)).map
            (fun r => r.quantity)).sum : ℤ) - soldSharesByGrant gl asOf g)) :
    ∃ h, perGrantHolding asOf rate price gl relevant g = some h ∧
      h.quantity = max 0
        ((((relevant.filter (fun r => r.grant_number == g)).map
              (fun r => r.quantity)).sum : ℤ) - soldSharesByGrant gl asOf g) := by
  simp only [perGrantHolding]
  rw [if_pos hpos, hgrp]
  exact ⟨_, rfl, by simp [← hgrp]⟩

theorem soldSharesByGrant_nonneg (gl : List GLStatementRecord) (asOf : ℤ)
    (g : String) (hq : ∀ r ∈ gl, 0 ≤ r.quantity) :
    0 ≤ soldSharesByGrant gl asOf g := by
  unfold soldSharesByGrant
  refine List.sum_nonneg ?_
  intro x hx
  rw [List.mem_map] at hx
  obtain ⟨r, hr, hre⟩ := hx
  subst hre
  exact hq r (List.mem_of_mem_filter hr)

/-! ### Spec-side definitions for §4.2 / §8 (stated from the spec's words,
to compare against the resolver) -/

/-- Spec §8: `totalVested(grant, asOfDate)` — quantity vested for the grant
on or before the date. -/
def totalVestedSpec (rsu : List RSUVestingRecord) (asOf : ℤ) (g : String) : ℤ :=
  ((rsu.filter (fun r => (r.grant_number == g) && decide (r.vesting_date ≤ asOf))).map
    (fun r => r.quantity)).sum

/-- Spec §8: `totalSold(grant, asOfDate)` — quantity sold for the grant on or
before the date, matched by grant identifier only. -/
def totalSoldSpec (gl : List GLStatementRecord) (asOf : ℤ) (g : String) : ℚ :=
  ((gl.filter (fun r => (r.grant_number == some g) && decide (r.date_sold ≤ asOf))).map
    (fun r => r.quantity)).sum

/-- The grant's vesting lots filtered to the as-of date (spec §4.2). -/
def grantLotsSpec (rsu : List RSUVestingRecord) (asOf : ℤ) (g : String) :
    List RSUVestingRecord :=
  rsu.filter (fun r => (r.grant_number == g) && decide (r.vesting_date ≤ asOf))

/-- Spec §4.2's FIFO walk: consume up to the current holding from each lot in
order at the lot's own FMV, until allocated or lots are exhausted. -/
def specFifoWalk : ℚ → List RSUVestingRecord → ℚ
  | _, [] => 0
  | holding, lot :: rest =>
    if holding ≤ 0 then 0
    else
      min holding (lot.quantity : ℚ) * lot.fmv_usd +
        specFifoWalk (holding - min holding (lot.quantity : ℚ)) rest

/-- Spec §4.2's FIFO cost basis: sort the grant's lots ascending by vesting
date, then walk them consuming the current holding. -/
def specFifoCostBasis (lots : List RSUVestingRecord) (currentHolding : ℚ) : ℚ :=
  specFifoWalk currentHolding (sortByVestDate lots)

theorem specFifoWalk_eq_fifoCostBasis (l : List RSUVestingRecord) :
    ∀ r : ℚ, specFifoWalk r l = fifoCostBasis r l := by
  induction l with
  | nil => intro r; rfl
  | cons lot rest ih =>
    intro r
    simp only [specFifoWalk, fifoCostBasis]
    by_cases h : r ≤ 0
    · rw [if_pos h, if_pos h]
    · rw [if_neg h, if_neg h, ih]

theorem group_eq_grantLotsSpec (rsu : List RSUVestingRecord) (asOf : ℤ) (g : String) :
    (relevantVestings rsu asOf).filter (fun r => r.grant_number == g) =
      grantLotsSpec rsu asOf g := by
  unfold relevantVestings grantLotsSpec
  rw [List.filter_filter]

theorem soldSharesByGrant_eq_totalSoldSpec (gl : List GLStatementRecord)
    (asOf : ℤ) (g : String) (hg : g ≠ "") :
    soldSharesByGrant gl asOf g = totalSoldSpec gl asOf g := by
  unfold soldSharesByGrant totalSoldSpec
  congr 2
  apply List.filter_congr
  intro r hr
  rcases hgn : r.grant_number == some g with _ | _
  · simp [hgn]
  · have he : r.grant_number = some g := eq_of_beq hgn
    have ht : gnTruthy r.grant_number = true := by
      rw [he]
      unfold gnTruthy
      simp [hg]
    simp [hgn, ht]

theorem totalVestedSpec_as_map_sum (rsu : List RSUVestingRecord) (asOf : ℤ)
    (g : String) :
    ((grantLotsSpec rsu asOf g).map (fun r => r.quantity)).sum =
      totalVestedSpec rsu asOf g := rfl

/-- C5: every holding the resolver emits has a positive quantity whose cost
basis equals the spec's FIFO walk over that grant's date-filtered lots sorted
ascending by vesting date, the average cost per share is the cost basis
divided by the quantity, and hence cost basis = average × quantity exactly
(the rational model makes the float-tolerance clause exact). -/
theorem resolver_cost_basis_is_spec_fifo_walk
    (rates stocks : Series) (rsu : List RSUVestingRecord)
    (gl : List GLStatementRecord) (asOf : ℤ) (h : EquityHolding)
    (hmem : h ∈ process_rsu_equity_holdings rates stocks rsu gl asOf) :
    ∃ g, h.grant_number = some g ∧ 0 < h.quantity ∧
      h.cost_basis_usd_total = specFifoCostBasis (grantLotsSpec rsu asOf g) h.quantity ∧
      h.cost_basis_usd_per_share = h.cost_basis_usd_total / h.quantity ∧
      h.cost_basis_usd_total = h.cost_basis_usd_per_share * h.quantity := by
  unfold process_rsu_equity_holdings at hmem
  split at hmem
  · cases hmem
  · split at hmem
    · cases hmem
    · split at hmem
      · cases hmem
      · split at hmem
        · cases hmem
        · rw [List.mem_filterMap] at hmem
          obtain ⟨g, hgk, hfg⟩ := hmem
          obtain ⟨h1, h2, h3, h4, h5⟩ :=
            perGrantHolding_some_fields _ _ _ _ _ _ _ hfg
          refine ⟨g, h1, h3, ?_, h5, ?_⟩
          · rw [h4, group_eq_grantLotsSpec]
            unfold specFifoCostBasis
            rw [specFifoWalk_eq_fifoCostBasis]
          · rw [h5, div_mul_cancel₀ _ (ne_of_gt h3)]

/-- C5 (witness): the resolver applied to a single-lot input; the theorem's
hypotheses are discharged at this concrete holding. -/
theorem resolver_cost_basis_witness :
    ∃ g, (some "G" : Option String) = some g ∧ (0 : ℚ) < 2 ∧
      (20 : ℚ) = specFifoCostBasis
        (grantLotsSpec
          [{ grant_number := "G", quantity := 2, vesting_date := mkDate 2024 1 15,
             fmv_usd := 10, forex_rate := 4, total_inr := 80 }]
          (mkDate 2024 12 31) g) 2 ∧
      (10 : ℚ) = 20 / 2 ∧ (20 : ℚ) = 10 * 2 := by
  have hmem :
      ({ holding_date := mkDate 2024 12 31, quantity := 2,
         cost_basis_usd_per_share := 10, market_value_usd_per_share := 7,
         cost_basis_usd_total := 20, market_value_usd_total := 14,
         cost_basis_inr_total := 80, market_value_inr_total := 56,
         exchange_rate := 4, holding_type := "Vested",
         grant_number := some "G", vest_date := some (mkDate 2024 1 15),
         calendar_year := 2024 } : EquityHolding) ∈
        process_rsu_equity_holdings [(mkDate 2024 1 15, 4)] [(mkDate 2024 1 15, 7)]
          [{ grant_number := "G", quantity := 2, vesting_date := mkDate 2024 1 15,
             fmv_usd := 10, forex_rate := 4, total_inr := 80 }]
          [] (mkDate 2024 12 31) := by
    norm_num +decide [process_rsu_equity_holdings, get_date_specific_exchange_rate,
      get_date_specific_stock_price, dateLookupWindowClamp, findRate, searchFrom,
      minKey, maxKey, relevantVestings, groupKeys, perGrantHolding,
      soldSharesByGrant, fifoCostBasis, sortByVestDate, insertByVestDate,
      latestVesting, gnTruthy, optTruthy, qOf, mkDate, daysBeforeYear,
      daysBeforeMonth, febExtra, isLeap, yearOf, dateYmd, List.filterMap_cons,
      List.filterMap_nil]
  exact resolver_cost_basis_is_spec_fifo_walk _ _ _ _ _ _ hmem

/-- C6: for every grant with a non-empty identifier (a falsy grant number
never matches), non-negative sale quantities (the model's validator), and
resolvable market data, the resolver reports the grant with quantity
`max 0 (totalVested − totalSold)` — disposals matched by grant identifier
only — exactly when that quantity is positive, and omits the grant entirely
when it is zero. -/
theorem resolver_quantity_invariant_and_omission
    (rates stocks : Series) (rsu : List RSUVestingRecord)
    (gl : List GLStatementRecord) (asOf : ℤ) (g : String)
    (hg : g ≠ "")
    (hq : ∀ r ∈ gl, 0 ≤ r.quantity)
    (hr : ∃ rq, get_date_specific_exchange_rate rates asOf = some rq ∧ rq ≠ 0)
    (hp : ∃ pq, get_date_specific_stock_price stocks asOf = some pq ∧ pq ≠ 0) :
    ((process_rsu_equity_holdings rates stocks rsu gl asOf).filter
        (fun h => h.grant_number == some g)).map (fun h => h.quantity) =
      if 0 < max 0 ((totalVestedSpec rsu asOf g : ℚ) - totalSoldSpec gl asOf g) then
        [max 0 ((totalVestedSpec rsu asOf g : ℚ) - totalSoldSpec gl asOf g)]
      else [] := by
  obtain ⟨rq, hrq, hrne⟩ := hr
  obtain ⟨pq, hpq, hpne⟩ := hp
  have hts : 0 ≤ totalSoldSpec gl asOf g := by
    rw [← soldSharesByGrant_eq_totalSoldSpec gl asOf g hg]
    exact soldSharesByGrant_nonneg gl asOf g hq
  unfold process_rsu_equity_holdings
  rw [hrq]
  simp only
  rw [if_neg (by simpa using hrne), hpq]
  simp only
  rw [if_neg (by simpa using hpne)]
  rw [filter_grant_of_filterMap _ _
    (fun g' h' he => perGrantHolding_grant _ _ _ _ _ g' h' he) g
    (groupKeys_nodup _)]
  have hcur :
      ((((relevantVestings rsu asOf).filter (fun r => r.grant_number == g)).map
          (fun r => r.quantity)).sum : ℤ) = totalVestedSpec rsu asOf g := by
    rw [group_eq_grantLotsSpec]
    rfl
  by_cases hmem : g ∈ groupKeys (relevantVestings rsu asOf)
  · by_cases hpos :
        0 < max 0 ((totalVestedSpec rsu asOf g : ℚ) - totalSoldSpec gl asOf g)
    · rw [if_pos hmem, if_pos hpos]
      have hne :
          (relevantVestings rsu asOf).filter (fun r => r.grant_number == g) ≠ [] := by
        intro hcon
        rw [group_eq_grantLotsSpec] at hcon
        have htv : totalVestedSpec rsu asOf g = 0 := by
          rw [← totalVestedSpec_as_map_sum, hcon]
          rfl
        rw [htv] at hpos
        rw [max_eq_left (by push_cast; linarith)] at hpos
        exact lt_irrefl _ hpos
      obtain ⟨f0, rest0, hgrp⟩ :
          ∃ f0 rest0,
            (relevantVestings rsu asOf).filter (fun r => r.grant_number == g) =
              f0 :: rest0 := by
        rcases hfil :
            (relevantVestings rsu asOf).filter (fun r => r.grant_number == g) with
            _ | ⟨a, b⟩
        · exact absurd hfil hne
        · exact ⟨a, b, hfil⟩
      have hpos' :
          0 < max 0
            (((((relevantVestings rsu asOf).filter
                  (fun r => r.grant_number == g)).map (fun r => r.quantity)).sum : ℤ) -
              soldSharesByGrant gl asOf g) := by
        rw [hcur, soldSharesByGrant_eq_totalSoldSpec gl asOf g hg]
        exact hpos
      obtain ⟨h, hsome, hqty⟩ :=
        perGrantHolding_some_of_pos asOf rq pq gl (relevantVestings rsu asOf) g
          f0 rest0 hgrp hpos'
      rw [hsome]
      show [h.quantity] = _
      rw [hqty, hcur, soldSharesByGrant_eq_totalSoldSpec gl asOf g hg]
    · rw [if_pos hmem, if_neg hpos]
      have hnp :
          ¬ 0 < max 0
            (((((relevantVestings rsu asOf).filter
                  (fun r => r.grant_number == g)).map (fun r => r.quantity)).sum : ℤ) -
              soldSharesByGrant gl asOf g) := by
        rw [hcur, soldSharesByGrant_eq_totalSoldSpec gl asOf g hg]
        exact hpos
      rw [perGrantHolding_eq_none_of_nonpos asOf rq pq gl _ g hnp]
      rfl
  · rw [if_neg hmem]
    have htv : totalVestedSpec rsu asOf g = 0 := by
      rw [← totalVestedSpec_as_map_sum]
      have : grantLotsSpec rsu asOf g = [] := by
        rw [← group_eq_grantLotsSpec]
        rw [List.filter_eq_nil_iff]
        intro r hrr hb
        refine hmem ?_
        rw [mem_groupKeys]
        exact ⟨r, hrr, eq_of_beq hb⟩
      rw [this]
      rfl
    rw [if_neg (by
      rw [htv]
      rw [max_eq_left (by push_cast; linarith)]
      exact lt_irrefl 0)]
    rfl

/-- C6 (witness): the invariant applied at a concrete single-lot input with
the hypotheses discharged. -/
theorem resolver_quantity_invariant_witness :
    ((process_rsu_equity_holdings [(mkDate 2024 1 15, 4)] [(mkDate 2024 1 15, 7)]
        [{ grant_number := "G", quantity := 2, vesting_date := mkDate 2024 1 15,
           fmv_usd := 10, forex_rate := 4, total_inr := 80 }]
        [] (mkDate 2024 12 31)).filter
      (fun h => h.grant_number == some "G")).map (fun h => h.quantity) =
      if 0 < max 0 ((totalVestedSpec
          [{ grant_number := "G", quantity := 2, vesting_date := mkDate 2024 1 15,
             fmv_usd := 10, forex_rate := 4, total_inr := 80 }]
          (mkDate 2024 12 31) "G" : ℚ) -
            totalSoldSpec [] (mkDate 2024 12 31) "G") then
        [max 0 ((totalVestedSpec
          [{ grant_number := "G", quantity := 2, vesting_date := mkDate 2024 1 15,
             fmv_usd := 10, forex_rate := 4, total_inr := 80 }]
          (mkDate 2024 12 31) "G" : ℚ) -
            totalSoldSpec [] (mkDate 2024 12 31) "G")]
      else [] := by
  refine resolver_quantity_invariant_and_omission _ _ _ _ _ _ (by decide)
    (fun r hr => absurd hr (List.not_mem_nil r)) ⟨4, ?_, by norm_num⟩ ⟨7, ?_, by norm_num⟩
  · norm_num +decide [get_date_specific_exchange_rate, dateLookupWindowClamp,
      findRate, searchFrom, minKey, maxKey, mkDate, daysBeforeYear,
      daysBeforeMonth, febExtra, isLeap]
  · norm_num +decide [get_date_specific_stock_price, dateLookupWindowClamp,
      findRate, searchFrom, minKey, maxKey, mkDate, daysBeforeYear,
      daysBeforeMonth, febExtra, isLeap]

/-! ## Balance calculator (`FACalculator.calculate_year_balances`) -/

/-- Python dict assignment `d[k] = v` on an insertion-ordered association
list: replace in place when the key exists, else append. -/
def upsert {β : Type} (l : List (ℤ × β)) (k : ℤ) (v : β) : List (ℤ × β) :=
  match l with
  | [] => [(k, v)]
  | p :: ps => if p.1 == k then (k, v) :: ps else p :: upsert ps k v

/-- Dict lookup `d[k]` / `k in d` on the association list. -/
def lookupEntry {β : Type} (l : List (ℤ × β)) (k : ℤ) : Option β :=
  (l.find? (fun p => p.1 == k)).map Prod.snd

theorem lookupEntry_upsert {β : Type} (l : List (ℤ × β)) (k : ℤ) (v : β) :
    ∀ k', lookupEntry (upsert l k v) k' = if k' = k then some v else lookupEntry l k' := by
  induction l with
  | nil =>
    intro k'
    unfold upsert lookupEntry
    by_cases h : k' = k
    · subst h
      simp
    · have hb : (k == k') = false := beq_eq_false_iff_ne.mpr (Ne.symm h)
      simp [hb, h]
  | cons p ps ih =>
    intro k'
    unfold upsert
    by_cases hpk : p.1 = k
    · rw [if_pos (by simpa using hpk)]
      by_cases h : k' = k
      · subst h
        unfold lookupEntry
        rw [List.find?_cons_of_pos _ (by simp)]
        simp
      · unfold lookupEntry
        rw [List.find?_cons_of_neg _ (by simpa using Ne.symm h),
          List.find?_cons_of_neg _ (by
            simp only [beq_iff_eq]
            rw [hpk]
            exact Ne.symm h)]
        rw [if_neg h]
    · rw [if_neg (by simpa using hpk)]
      by_cases h : k' = k
      · subst h
        unfold lookupEntry
        rw [List.find?_cons_of_neg _ (by simpa using hpk)]
        have := ih k'
        unfold lookupEntry at this
        rw [this, if_pos rfl, if_pos rfl]
      · by_cases hpk' : p.1 = k'
        · unfold lookupEntry
          rw [List.find?_cons_of_pos _ (by simpa using hpk'),
            List.find?_cons_of_pos _ (by simpa using hpk')]
          rw [if_neg h]
        · unfold lookupEntry
          rw [List.find?_cons_of_neg _ (by simpa using hpk'),
            List.find?_cons_of_neg _ (by simpa using hpk')]
          have := ih k'
          unfold lookupEntry at this
          rw [this, if_neg h]

theorem mem_upsert {β : Type} (l : List (ℤ × β)) (k : ℤ) (v : β) (e : ℤ × β)
    (he : e ∈ upsert l k v) : e = (k, v) ∨ e ∈ l := by
  induction l with
  | nil =>
    exact Or.inl (List.mem_singleton.mp he)
  | cons p ps ih =>
    unfold upsert at he
    by_cases hpk : (p.1 == k) = true
    · rw [if_pos hpk] at he
      rcases List.mem_cons.mp he with h | h
      · exact Or.inl h
      · exact Or.inr (List.mem_cons_of_mem _ h)
    · rw [if_neg hpk] at he
      rcases List.mem_cons.mp he with h | h
      · refine Or.inr ?_
        rw [h]
        exact List.mem_cons_self _ _
      · rcases ih h with h | h
        · exact Or.inl h
        · exact Or.inr (List.mem_cons_of_mem _ h)

theorem upsert_eq_append {β : Type} (l : List (ℤ × β)) (k : ℤ) (v : β)
    (hk : ∀ p ∈ l, p.1 ≠ k) : upsert l k v = l ++ [(k, v)] := by
  induction l with
  | nil => rfl
  | cons p ps ih =>
    unfold upsert
    rw [if_neg (by simpa using hk p (List.mem_cons_self _ _))]
    rw [ih (fun q hq => hk q (List.mem_cons_of_mem _ hq))]
    rfl

theorem foldl_upsert_eq_map {β : Type} (f : ℤ → β) :
    ∀ (ds : List ℤ) (acc : List (ℤ × β)),
      (∀ d ∈ ds, ∀ p ∈ acc, p.1 ≠ d) → ds.Nodup →
      ds.foldl (fun a d => upsert a d (f d)) acc = acc ++ ds.map (fun d => (d, f d)) := by
  intro ds
  induction ds with
  | nil => intro acc _ _; simp
  | cons d rest ih =>
    intro acc hdisj hnd
    simp only [List.foldl_cons]
    rw [upsert_eq_append acc d (f d) (fun p hp => hdisj d (List.mem_cons_self _ _) p hp)]
    rw [ih (acc ++ [(d, f d)]) ?_ (List.nodup_cons.mp hnd).2]
    · simp
    · intro d' hd' p hp
      rcases List.mem_append.mp hp with hp | hp
      · exact hdisj d' (List.mem_cons_of_mem _ hd') p hp
      · rw [List.mem_singleton] at hp
        subst hp
        intro hc
        simp only at hc
        refine (List.nodup_cons.mp hnd).1 ?_
        rw [hc]
        exact hd'

theorem lookupEntry_foldl_upsert {β : Type} (f : ℤ → β) :
    ∀ (ds : List ℤ) (acc : List (ℤ × β)) (k : ℤ),
      lookupEntry (ds.foldl (fun a d => upsert a d (f d)) acc) k =
        if k ∈ ds then some (f k) else lookupEntry acc k := by
  intro ds
  induction ds with
  | nil => intro acc k; simp
  | cons d rest ih =>
    intro acc k
    simp only [List.foldl_cons]
    rw [ih]
    by_cases hk : k ∈ rest
    · rw [if_pos hk, if_pos (List.mem_cons_of_mem _ hk)]
    · rw [if_neg hk, lookupEntry_upsert]
      by_cases hkd : k = d
      · subst hkd
        rw [if_pos rfl, if_pos (List.mem_cons_self _ _)]
      · rw [if_neg hkd, if_neg (by
          intro hc
          rcases List.mem_cons.mp hc with hc | hc
          · exact hkd hc
          · exact hk hc)]

theorem mem_foldl_upsert {β : Type} (f : ℤ → β) :
    ∀ (ds : List ℤ) (acc : List (ℤ × β)) (e : ℤ × β),
      e ∈ ds.foldl (fun a d => upsert a d (f d)) acc →
        (∃ d ∈ ds, e = (d, f d)) ∨ e ∈ acc := by
  intro ds
  induction ds with
  | nil => intro acc e he; exact Or.inr he
  | cons d rest ih =>
    intro acc e he
    simp only [List.foldl_cons] at he
    rcases ih _ e he with ⟨d', hd', he'⟩ | he'
    · exact Or.inl ⟨d', List.mem_cons_of_mem _ hd', he'⟩
    · rcases mem_upsert _ _ _ _ he' with h | h
      · exact Or.inl ⟨d, List.mem_cons_self _ _, h⟩
      · exact Or.inr h

/-- The earliest vesting date, across all grants, of a vest with shares not
fully sold (matched by grant and acquisition date) before the year's start;
falls back to January 1 (`FACalculator.get_earliest_vesting_date_for_year`). -/
def get_earliest_vesting_date_for_year (rsu : List RSUVestingRecord)
    (gl : List GLStatementRecord) (y : ℕ) : ℤ :=
  let year_start := mkDate y 1 1
  let relevant := rsu.filter (fun vest =>
    let shares_sold_before_year :=
      ((gl.filter (fun r => (r.grant_number == some vest.grant_number) &&
          (r.date_acquired == some vest.vesting_date) &&
          decide (r.date_sold < year_start))).map (fun r => r.quantity)).sum
    decide (0 < (vest.quantity : ℚ) - shares_sold_before_year))
  match relevant.map (fun v => v.vesting_date) with
  | [] => year_start
  | d :: ds => ds.foldl min d

/-- The last calendar day of each of the 12 months of `y`: December uses day
31 explicitly; the other months use the day before the first of the next
month. -/
def monthlyDates (y : ℕ) : List ℤ :=
  (List.range' 1 12).map
    (fun m => if m == 12 then mkDate y 12 31 else mkDate y (m + 1) 1 - 1)

/-- One dated row of the year sweep's balance dictionary. -/
structure BalanceEntry where
  date : ℤ
  vested_value_inr : ℚ
  total_value_usd : ℚ
  exchange_rate : Option ℚ
  stock_price : Option ℚ
  holdings_count : ℕ
  deriving Repr, DecidableEq

/-- The per-date body of the sweep: holdings as of the date, their summed
values, and the date-specific rate and price. -/
def mkBalanceEntry (rates stocks : Series) (rsu : List RSUVestingRecord)
    (gl : List GLStatementRecord) (d : ℤ) : BalanceEntry :=
  let holdings := process_rsu_equity_holdings rates stocks rsu gl d
  { date := d
    vested_value_inr :=
      ((holdings.filter (fun h => h.holding_type == "Vested")).map
        (fun h => h.market_value_inr_total)).sum
    total_value_usd := (holdings.map (fun h => h.market_value_usd_total)).sum
    exchange_rate := get_date_specific_exchange_rate rates d
    stock_price := get_date_specific_stock_price stocks d
    holdings_count := holdings.length }

/-- `FACalculator.calculate_year_balances`: the opening date plus the twelve
month-ends, each keyed into an insertion-ordered dictionary. -/
def calculate_year_balances (rates stocks : Series) (rsu : List RSUVestingRecord)
    (gl : List GLStatementRecord) (y : ℕ) : List (ℤ × BalanceEntry) :=
  (get_earliest_vesting_date_for_year rsu gl y :: monthlyDates y).foldl
    (fun acc d => upsert acc d (mkBalanceEntry rates stocks rsu gl d)) []

theorem process_rsu_equity_holdings_nil (rates stocks : Series)
    (gl : List GLStatementRecord) (d : ℤ) :
    process_rsu_equity_holdings rates stocks [] gl d = [] := by
  unfold process_rsu_equity_holdings
  split
  · rfl
  · split
    · rfl
    · split
      · rfl
      · split
        · rfl
        · rfl

theorem monthlyDates_explicit (y : ℕ) :
    monthlyDates y =
      [mkDate y 2 1 - 1, mkDate y 3 1 - 1, mkDate y 4 1 - 1, mkDate y 5 1 - 1,
       mkDate y 6 1 - 1, mkDate y 7 1 - 1, mkDate y 8 1 - 1, mkDate y 9 1 - 1,
       mkDate y 10 1 - 1, mkDate y 11 1 - 1, mkDate y 12 1 - 1, mkDate y 12 31] := by
  rfl

theorem febExtra_bounds (y : ℕ) : 0 ≤ febExtra y ∧ febExtra y ≤ 1 := by
  unfold febExtra
  split <;> simp

theorem sweepDates_nodup (y : ℕ) : (mkDate y 1 1 :: monthlyDates y).Nodup := by
  rw [monthlyDates_explicit]
  have hE := febExtra_bounds y
  simp only [mkDate, daysBeforeMonth, List.nodup_cons, List.mem_cons,
    List.mem_singleton, List.not_mem_nil, List.nodup_nil, not_or,
    not_false_eq_true, and_true]
  omega

/-- C9: with empty vesting and disposal lists, the year sweep returns exactly
13 dated entries for any year — the opening date (falling back to January 1)
plus the last calendar day of each of the 12 months (December using day 31,
the other months the day before the first of the next month, per
`monthlyDates`) — all with holdings count 0, valued INR 0 and USD 0; the
computation is total, so no exception arises. -/
theorem year_balances_on_empty_inputs (y : ℕ) (rates stocks : Series) :
    calculate_year_balances rates stocks [] [] y =
      (mkDate y 1 1 :: monthlyDates y).map
        (fun d => (d, mkBalanceEntry rates stocks [] [] d)) ∧
    (calculate_year_balances rates stocks [] [] y).length = 13 ∧
    ∀ p ∈ calculate_year_balances rates stocks [] [] y,
      p.2.holdings_count = 0 ∧ p.2.vested_value_inr = 0 ∧ p.2.total_value_usd = 0 := by
  have heq : calculate_year_balances rates stocks [] [] y =
      (mkDate y 1 1 :: monthlyDates y).map
        (fun d => (d, mkBalanceEntry rates stocks [] [] d)) := by
    unfold calculate_year_balances
    have hopen : get_earliest_vesting_date_for_year [] [] y = mkDate y 1 1 := rfl
    rw [hopen]
    rw [foldl_upsert_eq_map (fun d => mkBalanceEntry rates stocks [] [] d)
      (mkDate y 1 1 :: monthlyDates y) []
      (by intro d hd p hp; cases hp) (sweepDates_nodup y)]
    simp
  refine ⟨heq, ?_, ?_⟩
  · rw [heq, List.length_map, monthlyDates_explicit]
    rfl
  · intro p hp
    rw [heq, List.mem_map] at hp
    obtain ⟨d, hd, hpe⟩ := hp
    subst hpe
    simp [mkBalanceEntry, process_rsu_equity_holdings_nil]

/-! ## Share statistics (`FACalculator.calculate_share_statistics`) -/

/-- Aggregate share statistics for a calendar year. -/
structure ShareStats where
  total_vested_ever : ℚ
  total_sold_ever : ℚ
  total_sold_in_cl : ℚ
  opening_shares : ℚ
  current_holdings : ℚ
  vested_before_cl : ℚ
  sold_before_cl : ℚ
  deriving Repr, DecidableEq

/-- `FACalculator.calculate_share_statistics` (the `if r.quantity` guards
keep only truthy quantities, as in the source). -/
def calculate_share_statistics (rsu : List RSUVestingRecord)
    (gl : List GLStatementRecord) (y : ℕ) : ShareStats :=
  let cl_start := mkDate y 1 1
  let cl_end := mkDate y 12 31
  let total_vested_ever : ℚ := ((rsu.map (fun r => r.quantity)).sum : ℤ)
  let total_sold_ever :=
    ((gl.filter (fun r => !(r.quantity == 0))).map (fun r => r.quantity)).sum
  let total_sold_in_cl :=
    ((gl.filter (fun r => !(r.quantity == 0) && decide (cl_start ≤ r.date_sold) &&
        decide (r.date_sold ≤ cl_end))).map (fun r => r.quantity)).sum
  let vested_before_cl : ℚ :=
    (((rsu.filter (fun r => decide (r.vesting_date < cl_start))).map
      (fun r => r.quantity)).sum : ℤ)
  let sold_before_cl :=
    ((gl.filter (fun r => !(r.quantity == 0) && decide (r.date_sold < cl_start))).map
      (fun r => r.quantity)).sum
  { total_vested_ever := total_vested_ever
    total_sold_ever := total_sold_ever
    total_sold_in_cl := total_sold_in_cl
    opening_shares := max 0 (vested_before_cl - sold_before_cl)
    current_holdings := max 0 (total_vested_ever - total_sold_ever)
    vested_before_cl := vested_before_cl
    sold_before_cl := sold_before_cl }

/-! ## Vest-wise details (`FACalculator.calculate_vest_wise_details`)

The source keys its per-vest sale dictionaries by the string
`f"{grant_number}_{date_acquired}"`; the model matches on the
`(grant number, acquisition date)` pair directly, which coincides except
for contrived grant names that collide with the printed form. -/

/-- Shares sold from one vest during the calendar year. -/
def soldCYForVest (gl : List GLStatementRecord) (ys ye : ℤ)
    (vest : RSUVestingRecord) : ℚ :=
  ((gl.filter (fun r => decide (ys ≤ r.date_sold) && decide (r.date_sold ≤ ye) &&
      (r.grant_number == some vest.grant_number) &&
      (r.date_acquired == some vest.vesting_date))).map (fun r => r.quantity)).sum

/-- Shares sold from one vest on or before the year's end. -/
def salesThroughYear (gl : List GLStatementRecord) (ye : ℤ)
    (vest : RSUVestingRecord) : ℚ :=
  ((gl.filter (fun r => decide (r.date_sold ≤ ye) &&
      (r.grant_number == some vest.grant_number) &&
      (r.date_acquired == some vest.vesting_date))).map (fun r => r.quantity)).sum

/-- The share count used at one monthly point of the per-vest peak scan:
when shares were sold during the year, sales are modelled as happening at
year-end, so dates before December 31 use the full initial quantity and only
the December 31 point uses the reduced remaining quantity. -/
def vestSharesAtDate (qty remaining sold_cy : ℚ) (calc_date year_end : ℤ) : ℚ :=
  if 0 < sold_cy then (if calc_date < year_end then qty else remaining) else qty

/-- The monthly dates of the per-vest peak scan, from the start month through
December: December uses day 31, other months the day before the next month's
first. -/
def scanDates (y : ℕ) (start : ℕ) : List ℤ :=
  (List.range' start (13 - start)).map
    (fun m => if m == 12 then mkDate y 12 31 else mkDate y (m + 1) 1 - 1)

/-- Accumulator of the per-vest peak scan. -/
structure VestPeakAcc where
  value : ℚ
  date : Option ℤ
  price : ℚ
  rate : ℚ
  deriving Repr, DecidableEq

/-- One step of the per-vest peak scan: skip dates before vesting, value the
vest at the date, and keep the strictly larger value. -/
def vestPeakStep (rates stocks : Series) (vest_date ye : ℤ)
    (qty remaining sold_cy : ℚ) (acc : VestPeakAcc) (d : ℤ) : VestPeakAcc :=
  if vest_date ≤ d then
    let sp := get_date_specific_stock_price stocks d
    let er := get_date_specific_exchange_rate rates d
    let v := vestSharesAtDate qty remaining sold_cy d ye * qOf sp * qOf er
    if acc.value < v then
      { value := v, date := some d, price := qOf sp, rate := qOf er }
    else acc
  else acc

/-- Per-vest detail record for FA compliance (`VestWiseDetails`). -/
structure VestWiseDetails where
  vest_date : ℤ
  grant_number : String
  initial_shares : ℚ
  initial_value_usd : ℚ
  initial_value_inr : ℚ
  initial_stock_price : ℚ
  initial_exchange_rate : ℚ
  peak_value_inr : ℚ
  peak_date : Option ℤ
  peak_stock_price : ℚ
  peak_exchange_rate : ℚ
  closing_shares : ℚ
  closing_value_inr : ℚ
  closing_stock_price : ℚ
  closing_exchange_rate : ℚ
  gross_income_received : ℚ
  shares_sold : ℚ
  gross_proceeds_inr : ℚ
  fully_sold : Bool
  deriving Repr, DecidableEq

/-- The per-vest body of `calculate_vest_wise_details`. -/
def buildVestDetail (rates stocks : Series) (gl : List GLStatementRecord)
    (y : ℕ) (ys ye : ℤ) (vest : RSUVestingRecord) : VestWiseDetails :=
  let sold_cy := soldCYForVest gl ys ye vest
  let sold_through := salesThroughYear gl ye vest
  let remaining := max 0 ((vest.quantity : ℚ) - sold_through)
  let initial_usd := (vest.quantity : ℚ) * vest.fmv_usd
  let start := if yearOf vest.vesting_date == (y : ℤ) then monthOf vest.vesting_date else 1
  let pk := (scanDates y start).foldl
    (vestPeakStep rates stocks vest.vesting_date ye (vest.quantity : ℚ) remaining sold_cy)
    { value := 0, date := none, price := 0, rate := 0 }
  let cp := get_date_specific_stock_price stocks ye
  let cr := get_date_specific_exchange_rate rates ye
  { vest_date := vest.vesting_date
    grant_number := vest.grant_number
    initial_shares := (vest.quantity : ℚ)
    initial_value_usd := initial_usd
    initial_value_inr := initial_usd * vest.forex_rate
    initial_stock_price := vest.fmv_usd
    initial_exchange_rate := vest.forex_rate
    peak_value_inr := pk.value
    peak_date := pk.date
    peak_stock_price := pk.price
    peak_exchange_rate := pk.rate
    closing_shares := remaining
    closing_value_inr := remaining * qOf cp * qOf cr
    closing_stock_price := qOf cp
    closing_exchange_rate := qOf cr
    gross_income_received := 0
    shares_sold := sold_cy
    gross_proceeds_inr :=
      if 0 < sold_cy then
        ((gl.filter (fun r => decide (ys ≤ r.date_sold) && decide (r.date_sold ≤ ye) &&
            (r.grant_number == some vest.grant_number) &&
            (r.date_acquired == some vest.vesting_date))).map
          (fun r => r.quantity * r.proceeds_per_share *
            qOf (get_date_specific_exchange_rate rates r.date_sold))).sum
      else 0
    fully_sold := remaining == 0 }

/-- Stable insertion into a detail list sorted by vest date. -/
def insertDetail (x : VestWiseDetails) : List VestWiseDetails → List VestWiseDetails
  | [] => [x]
  | y :: ys =>
    if y.vest_date ≤ x.vest_date then y :: insertDetail x ys
    else x :: y :: ys

/-- `vest_details.sort(key=lambda x: x.vest_date)` (Python's stable sort). -/
def sortDetails (l : List VestWiseDetails) : List VestWiseDetails :=
  l.foldl (fun acc x => insertDetail x acc) []

/-- `FACalculator.calculate_vest_wise_details`: per-vest details for vests
with shares remaining at year-end or sales during the year, sorted by vest
date. -/
def calculate_vest_wise_details (rates stocks : Series)
    (rsu : List RSUVestingRecord) (gl : List GLStatementRecord) (y : ℕ) :
    List VestWiseDetails :=
  let ys := mkDate y 1 1
  let ye := mkDate y 12 31
  let relevant := rsu.filter (fun v => decide (v.vesting_date ≤ ye) &&
    (decide (0 < (v.quantity : ℚ) - salesThroughYear gl ye v) ||
      decide (0 < soldCYForVest gl ys ye v)))
  sortDetails (relevant.map (buildVestDetail rates stocks gl y ys ye))

/-! ## Year summary (`FACalculator.calculate_fa_summary`) -/

/-- Summary of Foreign Assets for declaration purposes
(`FADeclarationSummary`).  The rate/price fields hold what Python stores in
them: the float default `0.0`, a looked-up float, or `None` — hence
`Option ℚ` with default `some 0`.  The wall-clock `declaration_date` is
omitted (no claim touches it). -/
structure FADeclarationSummary where
  calendar_year : ℕ
  total_vested_shares : ℚ := 0
  total_vested_ever : ℚ := 0
  total_sold_in_cl : ℚ := 0
  total_sold_ever : ℚ := 0
  vested_holdings_usd : ℚ := 0
  vested_holdings_inr : ℚ := 0
  opening_balance_inr : ℚ := 0
  closing_balance_inr : ℚ := 0
  peak_balance_inr : ℚ := 0
  peak_balance_date : Option ℤ := none
  opening_exchange_rate : Option ℚ := some 0
  year_end_exchange_rate : Option ℚ := some 0
  peak_exchange_rate : Option ℚ := some 0
  opening_stock_price : Option ℚ := some 0
  year_end_stock_price : Option ℚ := some 0
  peak_stock_price : Option ℚ := some 0
  opening_shares : ℚ := 0
  closing_shares : ℚ := 0
  peak_shares : ℚ := 0
  fa_declaration_threshold_inr : ℚ := 200000
  vest_wise_details : List VestWiseDetails := []
  deriving Repr, DecidableEq

/-- `FADeclarationSummary.declaration_required`: peak balance meets or
exceeds the ₹2 lakh threshold. -/
def declaration_required (s : FADeclarationSummary) : Prop :=
  s.fa_declaration_threshold_inr ≤ s.peak_balance_inr

instance (s : FADeclarationSummary) : Decidable (declaration_required s) := by
  unfold declaration_required
  infer_instance

/-- `FADeclarationSummary.exceeds_declaration_threshold`: strictly above the
threshold. -/
def exceeds_declaration_threshold (s : FADeclarationSummary) : Prop :=
  s.fa_declaration_threshold_inr < s.peak_balance_inr

instance (s : FADeclarationSummary) : Decidable (exceeds_declaration_threshold s) := by
  unfold exceeds_declaration_threshold
  infer_instance

/-- Accumulator of the peak-balance selection loop. -/
structure PeakAcc where
  value : ℚ
  date : Option ℤ
  rate : Option ℚ
  price : Option ℚ
  shares : ℚ
  deriving Repr, DecidableEq

/-- One step of the peak-balance loop: strict `>` keeps the first maximum;
peak shares update only when the entry's stock price is a positive float
(the source compares `balance_data['stock_price'] > 0`, which assumes a
non-`None` price on any entry that can win). -/
def peakStep (acc : PeakAcc) (p : ℤ × BalanceEntry) : PeakAcc :=
  if acc.value < p.2.vested_value_inr then
    { value := p.2.vested_value_inr
      date := some p.2.date
      rate := p.2.exchange_rate
      price := p.2.stock_price
      shares :=
        match p.2.stock_price with
        | some sp => if 0 < sp then p.2.total_value_usd / sp else acc.shares
        | none => acc.shares }
  else acc

/-- Step of the year-end-holdings aggregation loop at the end of
`calculate_fa_summary`: sum vested values and adopt the first positive
exchange rate while the summary's is still the float `0.0`. -/
def holdingsAggStep (s : FADeclarationSummary) (h : EquityHolding) :
    FADeclarationSummary :=
  let s1 :=
    if h.holding_type == "Vested" then
      { s with
        vested_holdings_usd := s.vested_holdings_usd + h.market_value_usd_total
        vested_holdings_inr := s.vested_holdings_inr + h.market_value_inr_total }
    else s
  if 0 < h.exchange_rate ∧ s1.year_end_exchange_rate = some 0 then
    { s1 with year_end_exchange_rate := some h.exchange_rate }
  else s1

/-- The balance-analysis branch of `calculate_fa_summary` (runs only when
both record lists are truthy): share statistics, the year sweep, opening
figures read from the dictionary key of January 1, closing figures from
December 31, the strict-`>` peak selection, and the vest-wise details. -/
def fa_analysis_summary (rates stocks : Series) (y : ℕ)
    (rsu : List RSUVestingRecord) (gl : List GLStatementRecord) :
    FADeclarationSummary :=
  let stats := calculate_share_statistics rsu gl y
  let bc := calculate_year_balances rates stocks rsu gl y
  let sA : FADeclarationSummary :=
    { calendar_year := y
      total_vested_shares := stats.current_holdings
      total_vested_ever := stats.total_vested_ever
      total_sold_in_cl := stats.total_sold_in_cl
      total_sold_ever := stats.total_sold_ever }
  let sB :=
    match lookupEntry bc (mkDate y 1 1) with
    | some e =>
      { sA with
        opening_balance_inr := e.vested_value_inr
        opening_exchange_rate := e.exchange_rate
        opening_stock_price := e.stock_price
        opening_shares :=
          match e.stock_price with
          | some sp => if 0 < sp then e.total_value_usd / sp else sA.opening_shares
          | none => sA.opening_shares }
    | none => sA
  let sC :=
    match lookupEntry bc (mkDate y 12 31) with
    | some e =>
      { sB with
        closing_balance_inr := e.vested_value_inr
        year_end_exchange_rate := e.exchange_rate
        year_end_stock_price := e.stock_price
        closing_shares :=
          match e.stock_price with
          | some sp => if 0 < sp then e.total_value_usd / sp else sB.closing_shares
          | none => sB.closing_shares }
    | none => sB
  let pk := bc.foldl peakStep
    { value := 0, date := none, rate := some 0, price := some 0, shares := 0 }
  { sC with
    peak_balance_inr := pk.value
    peak_balance_date := pk.date
    peak_exchange_rate := pk.rate
    peak_stock_price := pk.price
    peak_shares := pk.shares
    vest_wise_details := calculate_vest_wise_details rates stocks rsu gl y }

/-- `FACalculator.calculate_fa_summary`.  Balance analysis runs only when
both record lists are truthy (non-empty); year-end holdings are then
aggregated, and a zero closing balance falls back to the aggregated vested
INR value. -/
def calculate_fa_summary (rates stocks : Series) (y : ℕ)
    (equity_holdings : List EquityHolding) (rsu : List RSUVestingRecord)
    (gl : List GLStatementRecord) : FADeclarationSummary :=
  let year_holdings := equity_holdings.filter (fun h => h.calendar_year == (y : ℤ))
  let s1 :=
    if !rsu.isEmpty && !gl.isEmpty then fa_analysis_summary rates stocks y rsu gl
    else { calendar_year := y }
  let s2 := year_holdings.foldl holdingsAggStep s1
  if s2.closing_balance_inr == 0 then
    { s2 with closing_balance_inr := s2.vested_holdings_inr }
  else s2

/-! ### Lemmas on the summary's loops -/

theorem peakStep_value (acc : PeakAcc) (p : ℤ × BalanceEntry) :
    (peakStep acc p).value = max acc.value p.2.vested_value_inr := by
  unfold peakStep
  split
  case isTrue h => exact (max_eq_right (le_of_lt h)).symm
  case isFalse h => exact (max_eq_left (not_lt.mp h)).symm

theorem peakFold_value (l : List (ℤ × BalanceEntry)) :
    ∀ acc : PeakAcc,
      (l.foldl peakStep acc).value =
        l.foldl (fun b p => max b p.2.vested_value_inr) acc.value := by
  induction l with
  | nil => intro acc; rfl
  | cons p rest ih =>
    intro acc
    simp only [List.foldl_cons]
    rw [ih, peakStep_value]

theorem foldl_max_base_le (l : List (ℤ × BalanceEntry)) :
    ∀ b : ℚ, b ≤ l.foldl (fun b p => max b p.2.vested_value_inr) b := by
  induction l with
  | nil => intro b; exact le_refl b
  | cons p rest ih =>
    intro b
    simp only [List.foldl_cons]
    exact le_trans (le_max_left _ _) (ih _)

theorem foldl_max_mono (l : List (ℤ × BalanceEntry)) :
    ∀ b b' : ℚ, b ≤ b' →
      l.foldl (fun b p => max b p.2.vested_value_inr) b ≤
        l.foldl (fun b p => max b p.2.vested_value_inr) b' := by
  induction l with
  | nil => intro b b' h; exact h
  | cons p rest ih =>
    intro b b' h
    simp only [List.foldl_cons]
    exact ih _ _ (max_le_max h (le_refl _))

theorem foldl_max_ge_mem (l : List (ℤ × BalanceEntry)) :
    ∀ (b : ℚ) (p : ℤ × BalanceEntry), p ∈ l →
      p.2.vested_value_inr ≤ l.foldl (fun b p => max b p.2.vested_value_inr) b := by
  induction l with
  | nil => intro b p hp; cases hp
  | cons q rest ih =>
    intro b p hp
    simp only [List.foldl_cons]
    rcases List.mem_cons.mp hp with hp | hp
    · subst hp
      exact le_trans (le_max_right _ _) (foldl_max_base_le rest _)
    · exact ih _ p hp

theorem peakFold_spec (l : List (ℤ × BalanceEntry)) :
    ∀ acc : PeakAcc,
      (¬ acc.value < (l.foldl peakStep acc).value → l.foldl peakStep acc = acc) ∧
      (acc.value < (l.foldl peakStep acc).value →
        ∃ p, l.find? (fun q =>
            q.2.vested_value_inr == (l.foldl peakStep acc).value) = some p ∧
          (l.foldl peakStep acc).date = some p.2.date ∧
          (l.foldl peakStep acc).rate = p.2.exchange_rate ∧
          (l.foldl peakStep acc).price = p.2.stock_price ∧
          p.2.vested_value_inr = (l.foldl peakStep acc).value) := by
  induction l with
  | nil =>
    intro acc
    refine ⟨fun _ => rfl, fun h => absurd h (lt_irrefl _)⟩
  | cons p rest ih =>
    intro acc
    simp only [List.foldl_cons]
    have hval : (rest.foldl peakStep (peakStep acc p)).value =
        rest.foldl (fun b q => max b q.2.vested_value_inr) (peakStep acc p).value :=
      peakFold_value rest (peakStep acc p)
    have hbase : (peakStep acc p).value ≤ (rest.foldl peakStep (peakStep acc p)).value := by
      rw [hval]
      exact foldl_max_base_le rest _
    by_cases hpv : acc.value < p.2.vested_value_inr
    · have hstep : peakStep acc p =
          { value := p.2.vested_value_inr, date := some p.2.date,
            rate := p.2.exchange_rate, price := p.2.stock_price,
            shares :=
              match p.2.stock_price with
              | some sp => if 0 < sp then p.2.total_value_usd / sp else acc.shares
              | none => acc.shares } := by
        unfold peakStep
        rw [if_pos hpv]
      have hsv : (peakStep acc p).value = p.2.vested_value_inr := by rw [hstep]
      by_cases hM : (peakStep acc p).value < (rest.foldl peakStep (peakStep acc p)).value
      · obtain ⟨q, hq1, hq2, hq3, hq4, hq5⟩ := (ih (peakStep acc p)).2 hM
        constructor
        · intro hc
          exact absurd (lt_of_lt_of_le (hsv ▸ hpv) hbase) hc
        · intro _
          refine ⟨q, ?_, hq2, hq3, hq4, hq5⟩
          rw [List.find?_cons_of_neg]
          · exact hq1
          · simp only [beq_iff_eq]
            rw [← hsv]
            exact ne_of_lt hM
      · have hfix := (ih (peakStep acc p)).1 hM
        rw [hfix]
        constructor
        · intro hc
          exact absurd (hsv ▸ hpv) hc
        · intro _
          refine ⟨p, ?_, ?_, ?_, ?_, ?_⟩
          · rw [List.find?_cons_of_pos]
            simp only [beq_iff_eq]
            rw [hsv]
          · rw [hstep]
          · rw [hstep]
          · rw [hstep]
          · rw [hsv]
    · have hstep : peakStep acc p = acc := by
        unfold peakStep
        rw [if_neg hpv]
      rw [hstep]
      rw [hstep] at hbase hval
      constructor
      · intro hc
        exact (ih acc).1 hc
      · intro hlt
        obtain ⟨q, hq1, hq2, hq3, hq4, hq5⟩ := (ih acc).2 hlt
        refine ⟨q, ?_, hq2, hq3, hq4, hq5⟩
        rw [List.find?_cons_of_neg]
        · exact hq1
        · simp only [beq_iff_eq]
          intro hc
          rw [hc] at hpv
          exact hpv hlt

theorem holdingsAggStep_preserves (s : FADeclarationSummary) (h : EquityHolding) :
    (holdingsAggStep s h).fa_declaration_threshold_inr = s.fa_declaration_threshold_inr ∧
    (holdingsAggStep s h).opening_balance_inr = s.opening_balance_inr ∧
    (holdingsAggStep s h).closing_balance_inr = s.closing_balance_inr ∧
    (holdingsAggStep s h).peak_balance_inr = s.peak_balance_inr ∧
    (holdingsAggStep s h).peak_balance_date = s.peak_balance_date ∧
    (holdingsAggStep s h).peak_exchange_rate = s.peak_exchange_rate ∧
    (holdingsAggStep s h).peak_stock_price = s.peak_stock_price := by
  unfold holdingsAggStep
  simp only []
  split <;> split <;> simp

theorem holdingsAggStep_vested_inr (s : FADeclarationSummary) (h : EquityHolding) :
    (holdingsAggStep s h).vested_holdings_inr =
      s.vested_holdings_inr +
        (if h.holding_type == "Vested" then h.market_value_inr_total else 0) := by
  unfold holdingsAggStep
  simp only []
  split <;> split <;> simp

theorem foldl_agg_preserves (l : List EquityHolding) :
    ∀ s : FADeclarationSummary,
      (l.foldl holdingsAggStep s).fa_declaration_threshold_inr = s.fa_declaration_threshold_inr ∧
      (l.foldl holdingsAggStep s).opening_balance_inr = s.opening_balance_inr ∧
      (l.foldl holdingsAggStep s).closing_balance_inr = s.closing_balance_inr ∧
      (l.foldl holdingsAggStep s).peak_balance_inr = s.peak_balance_inr ∧
      (l.foldl holdingsAggStep s).peak_balance_date = s.peak_balance_date ∧
      (l.foldl holdingsAggStep s).peak_exchange_rate = s.peak_exchange_rate ∧
      (l.foldl holdingsAggStep s).peak_stock_price = s.peak_stock_price := by
  induction l with
  | nil => intro s; exact ⟨rfl, rfl, rfl, rfl, rfl, rfl, rfl⟩
  | cons h rest ih =>
    intro s
    simp only [List.foldl_cons]
    obtain ⟨a1, a2, a3, a4, a5, a6, a7⟩ := ih (holdingsAggStep s h)
    obtain ⟨b1, b2, b3, b4, b5, b6, b7⟩ := holdingsAggStep_preserves s h
    exact ⟨a1.trans b1, a2.trans b2, a3.trans b3, a4.trans b4, a5.trans b5,
      a6.trans b6, a7.trans b7⟩

theorem foldl_agg_vested_inr (l : List EquityHolding) :
    ∀ s : FADeclarationSummary,
      (l.foldl holdingsAggStep s).vested_holdings_inr =
        s.vested_holdings_inr +
          ((l.filter (fun h => h.holding_type == "Vested")).map
            (fun h => h.market_value_inr_total)).sum := by
  induction l with
  | nil => intro s; simp
  | cons h rest ih =>
    intro s
    simp only [List.foldl_cons]
    rw [ih (holdingsAggStep s h), holdingsAggStep_vested_inr]
    by_cases hv : (h.holding_type == "Vested") = true
    · simp only [List.filter_cons, hv, if_true, List.map_cons, List.sum_cons, if_pos]
      ring
    · simp only [List.filter_cons, hv, if_false, Bool.false_eq_true, if_neg,
        not_false_eq_true, add_zero]

theorem lookupEntry_some_mem {β : Type} (l : List (ℤ × β)) (k : ℤ) (e : β)
    (he : lookupEntry l k = some e) : (k, e) ∈ l := by
  unfold lookupEntry at he
  rcases hf : l.find? (fun p => p.1 == k) with _ | p
  · rw [hf] at he
    cases he
  · rw [hf] at he
    injection he with he
    have hp := List.find?_some hf
    have hm := List.mem_of_find?_eq_some hf
    have hk : p.1 = k := by simpa using hp
    have : p = (k, e) := by
      rcases p with ⟨p1, p2⟩
      simp only at hk he
      rw [hk, he]
    rw [← this]
    exact hm

theorem sweep_lookup_dec31 (rates stocks : Series) (rsu : List RSUVestingRecord)
    (gl : List GLStatementRecord) (y : ℕ) :
    lookupEntry (calculate_year_balances rates stocks rsu gl y) (mkDate y 12 31) =
      some (mkBalanceEntry rates stocks rsu gl (mkDate y 12 31)) := by
  unfold calculate_year_balances
  rw [lookupEntry_foldl_upsert]
  rw [if_pos]
  refine List.mem_cons_of_mem _ ?_
  rw [monthlyDates_explicit]
  simp

theorem closing_update_peak (s : FADeclarationSummary) (x : ℚ) :
    ({ s with closing_balance_inr := x } : FADeclarationSummary).peak_balance_inr =
      s.peak_balance_inr := rfl

theorem closing_update_peak_date (s : FADeclarationSummary) (x : ℚ) :
    ({ s with closing_balance_inr := x } : FADeclarationSummary).peak_balance_date =
      s.peak_balance_date := rfl

theorem closing_update_peak_rate (s : FADeclarationSummary) (x : ℚ) :
    ({ s with closing_balance_inr := x } : FADeclarationSummary).peak_exchange_rate =
      s.peak_exchange_rate := rfl

theorem closing_update_peak_price (s : FADeclarationSummary) (x : ℚ) :
    ({ s with closing_balance_inr := x } : FADeclarationSummary).peak_stock_price =
      s.peak_stock_price := rfl

theorem closing_update_opening (s : FADeclarationSummary) (x : ℚ) :
    ({ s with closing_balance_inr := x } : FADeclarationSummary).opening_balance_inr =
      s.opening_balance_inr := rfl

theorem closing_update_threshold (s : FADeclarationSummary) (x : ℚ) :
    ({ s with closing_balance_inr := x } : FADeclarationSummary).fa_declaration_threshold_inr =
      s.fa_declaration_threshold_inr := rfl

theorem closing_update_closing (s : FADeclarationSummary) (x : ℚ) :
    ({ s with closing_balance_inr := x } : FADeclarationSummary).closing_balance_inr = x := rfl

theorem fa_analysis_peak_fields (rates stocks : Series) (y : ℕ)
    (rsu : List RSUVestingRecord) (gl : List GLStatementRecord) :
    (fa_analysis_summary rates stocks y rsu gl).peak_balance_inr =
      ((calculate_year_balances rates stocks rsu gl y).foldl peakStep
        { value := 0, date := none, rate := some 0, price := some 0, shares := 0 }).value ∧
    (fa_analysis_summary rates stocks y rsu gl).peak_balance_date =
      ((calculate_year_balances rates stocks rsu gl y).foldl peakStep
        { value := 0, date := none, rate := some 0, price := some 0, shares := 0 }).date ∧
    (fa_analysis_summary rates stocks y rsu gl).peak_exchange_rate =
      ((calculate_year_balances rates stocks rsu gl y).foldl peakStep
        { value := 0, date := none, rate := some 0, price := some 0, shares := 0 }).rate ∧
    (fa_analysis_summary rates stocks y rsu gl).peak_stock_price =
      ((calculate_year_balances rates stocks rsu gl y).foldl peakStep
        { value := 0, date := none, rate := some 0, price := some 0, shares := 0 }).price := by
  unfold fa_analysis_summary
  simp only []
  refine ⟨?_, ?_, ?_, ?_⟩ <;> first | rfl | trivial

theorem fa_analysis_opening (rates stocks : Series) (y : ℕ)
    (rsu : List RSUVestingRecord) (gl : List GLStatementRecord) :
    (fa_analysis_summary rates stocks y rsu gl).opening_balance_inr =
      (match lookupEntry (calculate_year_balances rates stocks rsu gl y) (mkDate y 1 1) with
        | some e => e.vested_value_inr
        | none => 0) := by
  unfold fa_analysis_summary
  simp only []
  rcases h1 : lookupEntry (calculate_year_balances rates stocks rsu gl y) (mkDate y 1 1) with
    _ | e1
  · rcases h2 : lookupEntry (calculate_year_balances rates stocks rsu gl y)
        (mkDate y 12 31) with _ | e2 <;> simp only [h1, h2]
  · rcases h2 : lookupEntry (calculate_year_balances rates stocks rsu gl y)
        (mkDate y 12 31) with _ | e2 <;> simp only [h1, h2]

theorem fa_analysis_closing (rates stocks : Series) (y : ℕ)
    (rsu : List RSUVestingRecord) (gl : List GLStatementRecord) :
    (fa_analysis_summary rates stocks y rsu gl).closing_balance_inr =
      (mkBalanceEntry rates stocks rsu gl (mkDate y 12 31)).vested_value_inr := by
  unfold fa_analysis_summary
  simp only []
  rw [sweep_lookup_dec31]

theorem fa_analysis_vested_inr (rates stocks : Series) (y : ℕ)
    (rsu : List RSUVestingRecord) (gl : List GLStatementRecord) :
    (fa_analysis_summary rates stocks y rsu gl).vested_holdings_inr = 0 := by
  unfold fa_analysis_summary
  simp only []
  rcases h1 : lookupEntry (calculate_year_balances rates stocks rsu gl y) (mkDate y 1 1) with
    _ | e1 <;>
    rcases h2 : lookupEntry (calculate_year_balances rates stocks rsu gl y)
      (mkDate y 12 31) with _ | e2 <;>
    simp only [h1, h2]

theorem fa_analysis_threshold (rates stocks : Series) (y : ℕ)
    (rsu : List RSUVestingRecord) (gl : List GLStatementRecord) :
    (fa_analysis_summary rates stocks y rsu gl).fa_declaration_threshold_inr = 200000 := by
  unfold fa_analysis_summary
  simp only []
  rcases h1 : lookupEntry (calculate_year_balances rates stocks rsu gl y) (mkDate y 1 1) with
    _ | e1 <;>
    rcases h2 : lookupEntry (calculate_year_balances rates stocks rsu gl y)
      (mkDate y 12 31) with _ | e2 <;>
    simp only [h1, h2]

/-- C7 (counterexample): with no disposal records the balance analysis is
skipped entirely (`if rsu_records and gl_records` is falsy), the peak stays
0.0, and the zero-closing fallback adopts the aggregated year-end vested
value — so a holder with vested shares and no sales gets
peakBalanceINR < closingBalanceINR, refuting the claimed inequality for
every computed YearSummary. -/
theorem peak_below_closing_without_sales :
    (calculate_fa_summary [] [] 2024
        [{ holding_date := mkDate 2024 12 31, quantity := 1,
           cost_basis_usd_per_share := 0, market_value_usd_per_share := 100,
           cost_basis_usd_total := 0, market_value_usd_total := 100,
           cost_basis_inr_total := 0, market_value_inr_total := 8000,
           exchange_rate := 80, holding_type := "Vested", grant_number := some "G",
           vest_date := some (mkDate 2024 1 15), calendar_year := 2024 }]
        [{ grant_number := "G", quantity := 1, vesting_date := mkDate 2024 1 15,
           fmv_usd := 100, forex_rate := 80, total_inr := 8000 }]
        []).peak_balance_inr <
      (calculate_fa_summary [] [] 2024
        [{ holding_date := mkDate 2024 12 31, quantity := 1,
           cost_basis_usd_per_share := 0, market_value_usd_per_share := 100,
           cost_basis_usd_total := 0, market_value_usd_total := 100,
           cost_basis_inr_total := 0, market_value_inr_total := 8000,
           exchange_rate := 80, holding_type := "Vested", grant_number := some "G",
           vest_date := some (mkDate 2024 1 15), calendar_year := 2024 }]
        [{ grant_number := "G", quantity := 1, vesting_date := mkDate 2024 1 15,
           fmv_usd := 100, forex_rate := 80, total_inr := 8000 }]
        []).closing_balance_inr := by
  norm_num +decide [calculate_fa_summary, holdingsAggStep, mkDate, daysBeforeYear,
    daysBeforeMonth, febExtra, isLeap, yearOf, dateYmd]

/-- C7 (amended): when balance analysis runs (non-empty vesting and disposal
lists), the summary's peak balance is the maximum vested INR value over the
year sweep's entries (opening date plus the 12 month-ends), ties broken in
favor of the first maximum in iteration order because a strict `>`
comparison is used (when the maximum is positive, the recorded peak date,
rate and price come from the first entry attaining it; when no entry beats
the 0.0 initial value, the peak date stays `None`); consequently
peakBalanceINR ≥ openingBalanceINR always, and
peakBalanceINR ≥ closingBalanceINR whenever the closing balance comes from
the sweep's December-31 entry rather than the zero-closing fallback to the
aggregated year-end holdings. -/
theorem fa_summary_peak_selection_and_bounds
    (rates stocks : Series) (y : ℕ) (eh : List EquityHolding)
    (rsu : List RSUVestingRecord) (gl : List GLStatementRecord)
    (hrsu : rsu ≠ []) (hgl : gl ≠ []) :
    (calculate_fa_summary rates stocks y eh rsu gl).peak_balance_inr =
      (calculate_year_balances rates stocks rsu gl y).foldl
        (fun b p => max b p.2.vested_value_inr) 0 ∧
    (0 < (calculate_year_balances rates stocks rsu gl y).foldl
        (fun b p => max b p.2.vested_value_inr) 0 →
      ∃ p, (calculate_year_balances rates stocks rsu gl y).find?
          (fun q => q.2.vested_value_inr ==
            (calculate_year_balances rates stocks rsu gl y).foldl
              (fun b p => max b p.2.vested_value_inr) 0) = some p ∧
        (calculate_fa_summary rates stocks y eh rsu gl).peak_balance_date =
          some p.2.date ∧
        (calculate_fa_summary rates stocks y eh rsu gl).peak_exchange_rate =
          p.2.exchange_rate ∧
        (calculate_fa_summary rates stocks y eh rsu gl).peak_stock_price =
          p.2.stock_price) ∧
    ((calculate_year_balances rates stocks rsu gl y).foldl
        (fun b p => max b p.2.vested_value_inr) 0 ≤ 0 →
      (calculate_fa_summary rates stocks y eh rsu gl).peak_balance_date = none) ∧
    (calculate_fa_summary rates stocks y eh rsu gl).opening_balance_inr ≤
      (calculate_fa_summary rates stocks y eh rsu gl).peak_balance_inr ∧
    (((mkBalanceEntry rates stocks rsu gl (mkDate y 12 31)).vested_value_inr ≠ 0 ∨
        (((eh.filter (fun h => h.calendar_year == (y : ℤ))).filter
          (fun h => h.holding_type == "Vested")).map
            (fun h => h.market_value_inr_total)).sum = 0) →
      (calculate_fa_summary rates stocks y eh rsu gl).closing_balance_inr ≤
        (calculate_fa_summary rates stocks y eh rsu gl).peak_balance_inr) := by
  have hcond : (!rsu.isEmpty && !gl.isEmpty) = true := by
    rcases rsu with _ | ⟨a, as⟩
    · exact absurd rfl hrsu
    · rcases gl with _ | ⟨b, bs⟩
      · exact absurd rfl hgl
      · rfl
  have hsum : calculate_fa_summary rates stocks y eh rsu gl =
      (if ((eh.filter (fun h => h.calendar_year == (y : ℤ))).foldl holdingsAggStep
            (fa_analysis_summary rates stocks y rsu gl)).closing_balance_inr == 0 then
        { (eh.filter (fun h => h.calendar_year == (y : ℤ))).foldl holdingsAggStep
            (fa_analysis_summary rates stocks y rsu gl) with
          closing_balance_inr :=
            ((eh.filter (fun h => h.calendar_year == (y : ℤ))).foldl holdingsAggStep
              (fa_analysis_summary rates stocks y rsu gl)).vested_holdings_inr }
      else
        (eh.filter (fun h => h.calendar_year == (y : ℤ))).foldl holdingsAggStep
          (fa_analysis_summary rates stocks y rsu gl)) := by
    unfold calculate_fa_summary
    simp only [hcond, eq_self_iff_true, if_true]
  obtain ⟨p1, p2, p3, p4, p5, p6, p7⟩ :=
    foldl_agg_preserves (eh.filter (fun h => h.calendar_year == (y : ℤ)))
      (fa_analysis_summary rates stocks y rsu gl)
  have hPk := fa_analysis_peak_fields rates stocks y rsu gl
  have hOp := fa_analysis_opening rates stocks y rsu gl
  have hCl := fa_analysis_closing rates stocks y rsu gl
  have hVi := foldl_agg_vested_inr (eh.filter (fun h => h.calendar_year == (y : ℤ)))
    (fa_analysis_summary rates stocks y rsu gl)
  rw [fa_analysis_vested_inr, zero_add] at hVi
  have hval : ((calculate_year_balances rates stocks rsu gl y).foldl peakStep
      { value := 0, date := none, rate := some 0, price := some 0, shares := 0 }).value =
      (calculate_year_balances rates stocks rsu gl y).foldl
        (fun b p => max b p.2.vested_value_inr) 0 :=
    peakFold_value (calculate_year_balances rates stocks rsu gl y) _
  have hm0 : (0 : ℚ) ≤ (calculate_year_balances rates stocks rsu gl y).foldl
      (fun b p => max b p.2.vested_value_inr) 0 :=
    foldl_max_base_le (calculate_year_balances rates stocks rsu gl y) 0
  -- field equations of the final summary
  have hs_peak : (calculate_fa_summary rates stocks y eh rsu gl).peak_balance_inr =
      (calculate_year_balances rates stocks rsu gl y).foldl
        (fun b p => max b p.2.vested_value_inr) 0 := by
    rw [hsum]
    split
    · simp only []
      rw [p4, hPk.1, hval]
    · rw [p4, hPk.1, hval]
  have hs_peak_date : (calculate_fa_summary rates stocks y eh rsu gl).peak_balance_date =
      ((calculate_year_balances rates stocks rsu gl y).foldl peakStep
        { value := 0, date := none, rate := some 0, price := some 0, shares := 0 }).date := by
    rw [hsum]
    split
    · simp only []
      rw [p5, hPk.2.1]
    · rw [p5, hPk.2.1]
  have hs_peak_rate : (calculate_fa_summary rates stocks y eh rsu gl).peak_exchange_rate =
      ((calculate_year_balances rates stocks rsu gl y).foldl peakStep
        { value := 0, date := none, rate := some 0, price := some 0, shares := 0 }).rate := by
    rw [hsum]
    split
    · simp only []
      rw [p6, hPk.2.2.1]
    · rw [p6, hPk.2.2.1]
  have hs_peak_price : (calculate_fa_summary rates stocks y eh rsu gl).peak_stock_price =
      ((calculate_year_balances rates stocks rsu gl y).foldl peakStep
        { value := 0, date := none, rate := some 0, price := some 0, shares := 0 }).price := by
    rw [hsum]
    split
    · simp only []
      rw [p7, hPk.2.2.2]
    · rw [p7, hPk.2.2.2]
  have hs_opening : (calculate_fa_summary rates stocks y eh rsu gl).opening_balance_inr =
      (match lookupEntry (calculate_year_balances rates stocks rsu gl y) (mkDate y 1 1) with
        | some e => e.vested_value_inr
        | none => 0) := by
    rw [hsum]
    split
    · simp only []
      rw [p2, hOp]
    · rw [p2, hOp]
  refine ⟨hs_peak, ?_, ?_, ?_, ?_⟩
  · -- first-maximum selection
    intro hpos
    obtain ⟨p, hq1, hq2, hq3, hq4, hq5⟩ :=
      (peakFold_spec (calculate_year_balances rates stocks rsu gl y)
        { value := 0, date := none, rate := some 0, price := some 0, shares := 0 }).2
        (by rw [hval]; exact hpos)
    rw [hval] at hq1
    exact ⟨p, hq1, by rw [hs_peak_date, hq2], by rw [hs_peak_rate, hq3],
      by rw [hs_peak_price, hq4]⟩
  · -- no positive entry: the peak date stays None
    intro hle
    have hzero : ((calculate_year_balances rates stocks rsu gl y).foldl peakStep
        { value := 0, date := none, rate := some 0, price := some 0, shares := 0 }).value =
        0 := by
      rw [hval]
      exact le_antisymm hle hm0
    have hfix := (peakFold_spec (calculate_year_balances rates stocks rsu gl y)
      { value := 0, date := none, rate := some 0, price := some 0, shares := 0 }).1
      (by rw [hzero]; exact lt_irrefl 0)
    rw [hs_peak_date, hfix]
  · -- opening ≤ peak
    rw [hs_opening, hs_peak]
    rcases hl : lookupEntry (calculate_year_balances rates stocks rsu gl y)
        (mkDate y 1 1) with _ | e
    · exact hm0
    · have hmem := lookupEntry_some_mem _ _ _ hl
      exact foldl_max_ge_mem (calculate_year_balances rates stocks rsu gl y) 0
        (mkDate y 1 1, e) hmem
  · -- closing ≤ peak when the fallback does not fire
    intro hcv
    rw [hs_peak, hsum]
    split
    case isTrue hfb =>
      -- the fallback fired: the sweep's closing value was zero
      have hFclos : ((eh.filter (fun h => h.calendar_year == (y : ℤ))).foldl
          holdingsAggStep (fa_analysis_summary rates stocks y rsu gl)).closing_balance_inr
          = 0 := eq_of_beq hfb
      rw [p3, hCl] at hFclos
      rcases hcv with hcv | hcv
      · exact absurd hFclos hcv
      · simp only []
        rw [hVi, hcv]
        exact hm0
    case isFalse hfb =>
      rw [p3, hCl]
      have hmem := lookupEntry_some_mem _ _ _
        (sweep_lookup_dec31 rates stocks rsu gl y)
      exact foldl_max_ge_mem (calculate_year_balances rates stocks rsu gl y) 0
        (mkDate y 12 31, mkBalanceEntry rates stocks rsu gl (mkDate y 12 31)) hmem

/-- C7 (witness): the peak-selection theorem applied at a concrete input
(one vesting lot, one zero-quantity sale row, single-date market series). -/
theorem fa_summary_peak_selection_witness :
    (calculate_fa_summary [(mkDate 2024 1 15, 80)] [(mkDate 2024 1 15, 100)] 2024 []
        [{ grant_number := "G", quantity := 1, vesting_date := mkDate 2024 1 15,
           fmv_usd := 100, forex_rate := 80, total_inr := 8000 }]
        [{ grant_number := some "G", quantity := 0,
           date_acquired := some (mkDate 2024 1 15),
           date_sold := mkDate 2025 6 1, proceeds_per_share := 100 }]).peak_balance_inr =
      (calculate_year_balances [(mkDate 2024 1 15, 80)] [(mkDate 2024 1 15, 100)]
        [{ grant_number := "G", quantity := 1, vesting_date := mkDate 2024 1 15,
           fmv_usd := 100, forex_rate := 80, total_inr := 8000 }]
        [{ grant_number := some "G", quantity := 0,
           date_acquired := some (mkDate 2024 1 15),
           date_sold := mkDate 2025 6 1, proceeds_per_share := 100 }] 2024).foldl
        (fun b p => max b p.2.vested_value_inr) 0 :=
  (fa_summary_peak_selection_and_bounds [(mkDate 2024 1 15, 80)]
    [(mkDate 2024 1 15, 100)] 2024 []
    [{ grant_number := "G", quantity := 1, vesting_date := mkDate 2024 1 15,
       fmv_usd := 100, forex_rate := 80, total_inr := 8000 }]
    [{ grant_number := some "G", quantity := 0,
       date_acquired := some (mkDate 2024 1 15),
       date_sold := mkDate 2025 6 1, proceeds_per_share := 100 }]
    (List.cons_ne_nil _ _) (List.cons_ne_nil _ _)).1

/-- C8: every summary the calculator builds carries the default ₹200,000
threshold; `declaration_required` is exactly peak ≥ threshold and
`exceeds_declaration_threshold` exactly peak > threshold — both read only
the peak balance, so a peak of ₹250,000 with closing ₹150,000 still requires
declaration, while the same closing with peak ₹150,000 would not. -/
theorem declaration_threshold_rules :
    (∀ (rates stocks : Series) (y : ℕ) (eh : List EquityHolding)
        (rsu : List RSUVestingRecord) (gl : List GLStatementRecord),
      (calculate_fa_summary rates stocks y eh rsu gl).fa_declaration_threshold_inr =
        200000) ∧
    (∀ s : FADeclarationSummary,
      (declaration_required s ↔ s.fa_declaration_threshold_inr ≤ s.peak_balance_inr) ∧
      (exceeds_declaration_threshold s ↔
        s.fa_declaration_threshold_inr < s.peak_balance_inr)) ∧
    declaration_required
      { calendar_year := 2024, peak_balance_inr := 250000,
        closing_balance_inr := 150000 } ∧
    ¬ declaration_required
      { calendar_year := 2024, peak_balance_inr := 150000,
        closing_balance_inr := 150000 } := by
  refine ⟨?_, fun s => ⟨Iff.rfl, Iff.rfl⟩, ?_, ?_⟩
  · intro rates stocks y eh rsu gl
    by_cases hc : (!rsu.isEmpty && !gl.isEmpty) = true
    · have hsum : calculate_fa_summary rates stocks y eh rsu gl =
          (if ((eh.filter (fun h => h.calendar_year == (y : ℤ))).foldl holdingsAggStep
                (fa_analysis_summary rates stocks y rsu gl)).closing_balance_inr == 0 then
            { (eh.filter (fun h => h.calendar_year == (y : ℤ))).foldl holdingsAggStep
                (fa_analysis_summary rates stocks y rsu gl) with
              closing_balance_inr :=
                ((eh.filter (fun h => h.calendar_year == (y : ℤ))).foldl holdingsAggStep
                  (fa_analysis_summary rates stocks y rsu gl)).vested_holdings_inr }
          else
            (eh.filter (fun h => h.calendar_year == (y : ℤ))).foldl holdingsAggStep
              (fa_analysis_summary rates stocks y rsu gl)) := by
        unfold calculate_fa_summary
        simp only [hc, eq_self_iff_true, if_true]
      rw [hsum]
      split
      · simp only []
        rw [(foldl_agg_preserves (eh.filter (fun h => h.calendar_year == (y : ℤ)))
          (fa_analysis_summary rates stocks y rsu gl)).1]
        exact fa_analysis_threshold rates stocks y rsu gl
      · rw [(foldl_agg_preserves (eh.filter (fun h => h.calendar_year == (y : ℤ)))
          (fa_analysis_summary rates stocks y rsu gl)).1]
        exact fa_analysis_threshold rates stocks y rsu gl
    · have hc' : (!rsu.isEmpty && !gl.isEmpty) = false := by
        rcases hb : (!rsu.isEmpty && !gl.isEmpty) with _ | _
        · rfl
        · exact absurd hb hc
      have hsum : calculate_fa_summary rates stocks y eh rsu gl =
          (if ((eh.filter (fun h => h.calendar_year == (y : ℤ))).foldl holdingsAggStep
                ({ calendar_year := y } : FADeclarationSummary)).closing_balance_inr == 0 then
            { (eh.filter (fun h => h.calendar_year == (y : ℤ))).foldl holdingsAggStep
                ({ calendar_year := y } : FADeclarationSummary) with
              closing_balance_inr :=
                ((eh.filter (fun h => h.calendar_year == (y : ℤ))).foldl holdingsAggStep
                  ({ calendar_year := y } : FADeclarationSummary)).vested_holdings_inr }
          else
            (eh.filter (fun h => h.calendar_year == (y : ℤ))).foldl holdingsAggStep
              ({ calendar_year := y } : FADeclarationSummary)) := by
        unfold calculate_fa_summary
        simp only [hc', Bool.false_eq_true, if_false]
      rw [hsum]
      split
      · simp only []
        rw [(foldl_agg_preserves (eh.filter (fun h => h.calendar_year == (y : ℤ)))
          ({ calendar_year := y } : FADeclarationSummary)).1]
      · rw [(foldl_agg_preserves (eh.filter (fun h => h.calendar_year == (y : ℤ)))
          ({ calendar_year := y } : FADeclarationSummary)).1]
  · unfold declaration_required
    norm_num
  · unfold declaration_required
    norm_num

/-! ## Opening figures and the January-1 dictionary key (C2) -/

/-- C2 input, vesting side: one vest on 2024-01-15, so the sweep's opening
date is not January 1. -/
def c2rsu : List RSUVestingRecord :=
  [{ grant_number := "G", quantity := 100, vesting_date := mkDate 2024 1 15,
     fmv_usd := 100, forex_rate := 80, total_inr := 800000 }]

/-- C2 input, disposal side: a single sale dated the following year, present
only so that `gl_records` is truthy and the balance analysis runs; it sells
nothing before or during 2024. -/
def c2gl : List GLStatementRecord :=
  [{ grant_number := some "G", quantity := 10,
     date_acquired := some (mkDate 2024 1 15),
     date_sold := mkDate 2025 6 1, proceeds_per_share := 100 }]

/-- C2 input: exchange-rate series with its single entry on the vest date. -/
def c2rates : Series := [(mkDate 2024 1 15, 80)]

/-- C2 input: stock-price series with its single entry on the vest date. -/
def c2stocks : Series := [(mkDate 2024 1 15, 100)]

theorem c2_opening_date :
    get_earliest_vesting_date_for_year c2rsu c2gl 2024 = mkDate 2024 1 15 := by
  norm_num +decide [get_earliest_vesting_date_for_year, c2rsu, c2gl, mkDate,
    daysBeforeYear, daysBeforeMonth, febExtra, isLeap]

theorem c2_sweep_no_jan1 :
    lookupEntry (calculate_year_balances c2rates c2stocks c2rsu c2gl 2024)
      (mkDate 2024 1 1) = none := by
  unfold calculate_year_balances
  rw [c2_opening_date, lookupEntry_foldl_upsert, if_neg]
  · rfl
  · rw [monthlyDates_explicit]
    decide

theorem c2_sweep_opening_entry :
    lookupEntry (calculate_year_balances c2rates c2stocks c2rsu c2gl 2024)
      (mkDate 2024 1 15) =
      some (mkBalanceEntry c2rates c2stocks c2rsu c2gl (mkDate 2024 1 15)) := by
  unfold calculate_year_balances
  rw [c2_opening_date, lookupEntry_foldl_upsert,
    if_pos (List.mem_cons_self _ _)]

theorem c2_opening_entry_value :
    (mkBalanceEntry c2rates c2stocks c2rsu c2gl
      (mkDate 2024 1 15)).vested_value_inr = 800000 := by
  norm_num +decide [mkBalanceEntry, process_rsu_equity_holdings,
    get_date_specific_exchange_rate, get_date_specific_stock_price,
    dateLookupWindowClamp, findRate, searchFrom, minKey, maxKey,
    relevantVestings, groupKeys, perGrantHolding, soldSharesByGrant,
    fifoCostBasis, sortByVestDate, insertByVestDate, latestVesting, gnTruthy,
    optTruthy, qOf, mkDate, daysBeforeYear, daysBeforeMonth, febExtra, isLeap,
    yearOf, dateYmd, List.filterMap_cons, List.filterMap_nil, c2rates,
    c2stocks, c2rsu, c2gl]

theorem fa_summary_opening_of_analysis (rates stocks : Series) (y : ℕ)
    (eh : List EquityHolding) (rsu : List RSUVestingRecord)
    (gl : List GLStatementRecord)
    (hc : (!rsu.isEmpty && !gl.isEmpty) = true) :
    (calculate_fa_summary rates stocks y eh rsu gl).opening_balance_inr =
      (fa_analysis_summary rates stocks y rsu gl).opening_balance_inr := by
  have hsum : calculate_fa_summary rates stocks y eh rsu gl =
      (if ((eh.filter (fun h => h.calendar_year == (y : ℤ))).foldl holdingsAggStep
            (fa_analysis_summary rates stocks y rsu gl)).closing_balance_inr == 0 then
        { (eh.filter (fun h => h.calendar_year == (y : ℤ))).foldl holdingsAggStep
            (fa_analysis_summary rates stocks y rsu gl) with
          closing_balance_inr :=
            ((eh.filter (fun h => h.calendar_year == (y : ℤ))).foldl holdingsAggStep
              (fa_analysis_summary rates stocks y rsu gl)).vested_holdings_inr }
      else
        (eh.filter (fun h => h.calendar_year == (y : ℤ))).foldl holdingsAggStep
          (fa_analysis_summary rates stocks y rsu gl)) := by
    unfold calculate_fa_summary
    simp only [hc, eq_self_iff_true, if_true]
  rw [hsum]
  split
  · simp only []
    exact (foldl_agg_preserves (eh.filter (fun h => h.calendar_year == (y : ℤ)))
      (fa_analysis_summary rates stocks y rsu gl)).2.1
  · exact (foldl_agg_preserves (eh.filter (fun h => h.calendar_year == (y : ℤ)))
      (fa_analysis_summary rates stocks y rsu gl)).2.1

/-- C2 (code bug): the summary reads its opening figures from the sweep
dictionary under the fixed key January 1 (`opening_key = f"{year}-01-01"`,
fa_calculator.py:1095), while the sweep itself keys its opening entry by the
earliest relevant vesting date (`[opening_date] + monthly_dates`,
fa_calculator.py:713).  On an input whose opening date is 2024-01-15, the
sweep's opening-date entry carries a vested value of ₹800,000, no sweep
entry is keyed January 1, and the summary's opening balance stays the
default 0.0 — the claimed equality with the opening-date entry fails, and
the fallback-to-January-1 behaviour the claim describes never engages. -/
theorem opening_balance_reads_fixed_jan1_key :
    get_earliest_vesting_date_for_year c2rsu c2gl 2024 = mkDate 2024 1 15 ∧
    mkDate 2024 1 15 ≠ mkDate 2024 1 1 ∧
    lookupEntry (calculate_year_balances c2rates c2stocks c2rsu c2gl 2024)
        (mkDate 2024 1 1) = none ∧
    lookupEntry (calculate_year_balances c2rates c2stocks c2rsu c2gl 2024)
        (mkDate 2024 1 15) =
      some (mkBalanceEntry c2rates c2stocks c2rsu c2gl (mkDate 2024 1 15)) ∧
    (mkBalanceEntry c2rates c2stocks c2rsu c2gl
        (mkDate 2024 1 15)).vested_value_inr = 800000 ∧
    (calculate_fa_summary c2rates c2stocks 2024 [] c2rsu c2gl).opening_balance_inr
      = 0 := by
  refine ⟨c2_opening_date, by decide, c2_sweep_no_jan1, c2_sweep_opening_entry,
    c2_opening_entry_value, ?_⟩
  rw [fa_summary_opening_of_analysis c2rates c2stocks 2024 [] c2rsu c2gl rfl,
    fa_analysis_opening, c2_sweep_no_jan1]

/-! ## Vest-wise peak scan and mid-year sales (C10) -/

theorem scanDates_le_year_end (y start : ℕ) :
    ∀ d ∈ scanDates y start, d = mkDate y 12 31 ∨ d < mkDate y 12 31 := by
  intro d hd
  unfold scanDates at hd
  rw [List.mem_map] at hd
  obtain ⟨m, hm, hdm⟩ := hd
  rw [List.mem_range'_1] at hm
  have hm12 : m ≤ 12 := by omega
  by_cases h12 : m = 12
  · subst h12
    rw [if_pos (by decide)] at hdm
    exact Or.inl hdm.symm
  · rw [if_neg (by simpa using h12)] at hdm
    refine Or.inr ?_
    rw [← hdm]
    have hE := febExtra_bounds y
    interval_cases m <;>
      simp only [mkDate, daysBeforeMonth] <;> omega

/-- C10 input, vesting side: 10 shares vested 2024-01-10 at FMV 100 USD. -/
def c10rsu : List RSUVestingRecord :=
  [{ grant_number := "G", quantity := 10, vesting_date := mkDate 2024 1 10,
     fmv_usd := 100, forex_rate := 80, total_inr := 80000 }]

/-- C10 input, disposal side: 5 of the 10 shares sold mid-year
(2024-03-15). -/
def c10gl : List GLStatementRecord :=
  [{ grant_number := some "G", quantity := 5,
     date_acquired := some (mkDate 2024 1 10),
     date_sold := mkDate 2024 3 15, proceeds_per_share := 100 }]

/-- C10 input: exchange rate 80 at every month-end of 2024. -/
def c10rates : Series :=
  [(mkDate 2024 1 31, 80), (mkDate 2024 2 29, 80), (mkDate 2024 3 31, 80),
   (mkDate 2024 4 30, 80), (mkDate 2024 5 31, 80), (mkDate 2024 6 30, 80),
   (mkDate 2024 7 31, 80), (mkDate 2024 8 31, 80), (mkDate 2024 9 30, 80),
   (mkDate 2024 10 31, 80), (mkDate 2024 11 30, 80), (mkDate 2024 12 31, 80)]

/-- C10 input: stock price 100 at every month-end of 2024. -/
def c10stocks : Series :=
  [(mkDate 2024 1 31, 100), (mkDate 2024 2 29, 100), (mkDate 2024 3 31, 100),
   (mkDate 2024 4 30, 100), (mkDate 2024 5 31, 100), (mkDate 2024 6 30, 100),
   (mkDate 2024 7 31, 100), (mkDate 2024 8 31, 100), (mkDate 2024 9 30, 100),
   (mkDate 2024 10 31, 100), (mkDate 2024 11 30, 100), (mkDate 2024 12 31, 100)]

/-- C10: when shares from a vest were sold during the calendar year
(`sold_cy > 0`), every scan date before December 31 values the vest at its
full initial quantity and only the December 31 point uses the reduced
remaining quantity (first conjunct); each step of the per-vest peak scan on
a date at or after vesting keeps the larger of the running peak and the
date's valuation built from exactly that share count (second conjunct); and
on a concrete input — 10 shares vested 2024-01-10, 5 sold 2024-03-15, flat
price 100 and rate 80 — the reported per-vest peak is ₹80,000 (10 shares)
while the five shares actually held after the sale close the year at
₹40,000, so the peak exceeds the value of the shares actually held in the
months after the mid-year sale (third conjunct). -/
theorem vest_peak_scan_models_sales_at_year_end :
    (∀ (qty remaining sold_cy : ℚ) (y start : ℕ),
      0 < sold_cy →
        (∀ d ∈ scanDates y start, d ≠ mkDate y 12 31 →
            vestSharesAtDate qty remaining sold_cy d (mkDate y 12 31) = qty) ∧
        vestSharesAtDate qty remaining sold_cy (mkDate y 12 31) (mkDate y 12 31)
          = remaining) ∧
    (∀ (rates stocks : Series) (vest_date ye : ℤ) (qty remaining sold_cy : ℚ)
        (acc : VestPeakAcc) (d : ℤ),
      vest_date ≤ d →
        (vestPeakStep rates stocks vest_date ye qty remaining sold_cy acc d).value =
          max acc.value
            (vestSharesAtDate qty remaining sold_cy d ye *
              qOf (get_date_specific_stock_price stocks d) *
              qOf (get_date_specific_exchange_rate rates d))) ∧
    ((calculate_vest_wise_details c10rates c10stocks c10rsu c10gl 2024).map
        (fun v => (v.initial_shares, v.shares_sold, v.peak_value_inr,
          v.closing_shares, v.closing_value_inr)) = [(10, 5, 80000, 5, 40000)]) := by
  refine ⟨?_, ?_, ?_⟩
  · intro qty remaining sold_cy y start hpos
    constructor
    · intro d hd hne
      rcases scanDates_le_year_end y start d hd with h | h
      · exact absurd h hne
      · unfold vestSharesAtDate
        rw [if_pos hpos, if_pos h]
    · unfold vestSharesAtDate
      rw [if_pos hpos, if_neg (lt_irrefl _)]
  · intro rates stocks vest_date ye qty remaining sold_cy acc d hvd
    unfold vestPeakStep
    rw [if_pos hvd]
    simp only []
    split
    next h => exact (max_eq_right h.le).symm
    next h => exact (max_eq_left (not_lt.mp h)).symm
  · norm_num +decide [calculate_vest_wise_details, buildVestDetail,
      soldCYForVest, salesThroughYear, vestSharesAtDate, scanDates,
      vestPeakStep, sortDetails, insertDetail, get_date_specific_stock_price,
      get_date_specific_exchange_rate, dateLookupWindowClamp, findRate,
      searchFrom, minKey, maxKey, qOf, mkDate, daysBeforeYear, daysBeforeMonth,
      febExtra, isLeap, yearOf, monthOf, dateYmd, List.range', c10rsu, c10gl,
      c10rates, c10stocks]
